import Mathlib

/-!
Verification of the volty chat-client library against its specification.

The definitions below are a shallow embedding of the Rust sources:

* `volty-types/src/permissions/mod.rs` (permission arithmetic),
* `volty-types/src/servers/server.rs`, `server_member.rs`,
  `channels/channel.rs`, `media/emoji.rs` (the data model),
* `volty-http/src/bucket.rs` and `lib.rs` (rate limiting and response
  classification),
* `volty-http/src/routes/channels/message_send.rs` (message validation),
* `volty-ws/src/cache.rs` (the event cache) and `volty-ws/src/lib.rs`
  (the gateway loop).

Machine integers are modelled as `Nat`/`Int` with explicit `% 2^64`
where a Rust cast wraps.  Rust `HashMap`s are modelled as functions
`String → Option α` (pointwise semantics, no iteration order), and
`HashSet`s / `Vec`s as lists.  Fallible code (`panic!`, `unwrap`,
`expect`) is modelled with `Option`.  Timestamps and `Instant`s are
explicit numeric parameters (`now`).
-/

namespace Volty

/-- 2^64, the modulus of Rust's `u64`. -/
def U64 : Nat := 2 ^ 64

/-- Reinterpretation of an `i64` value as `u64` (Rust `v as u64`):
two's-complement bits, i.e. the representative of `v` modulo `2^64`. -/
def u64ofInt (v : Int) : Nat := (v % (U64 : Int)).toNat

/-- `OverrideField` from `permissions/mod.rs`: an override as stored on
models, with `i64` allow (`a`) and deny (`d`) bitfields. -/
structure OverrideField where
  a : Int
  d : Int
deriving DecidableEq, Repr

/-- `Override` from `permissions/mod.rs`: `u64` allow/deny bitfields. -/
structure Override where
  allow : Nat
  deny : Nat
deriving DecidableEq, Repr

/-- `From<OverrideField> for Override`: each `i64` field is cast to `u64`. -/
def OverrideField.toOverride (f : OverrideField) : Override :=
  ⟨u64ofInt f.a, u64ofInt f.d⟩

/-- Bitwise complement on 64-bit values (`!v` on a `u64`). -/
def not64 (v : Nat) : Nat := Nat.xor (U64 - 1) v

/-- `PermissionValue::apply`: `value |= allow; value &= !deny`. -/
def applyOverride (p : Nat) (o : Override) : Nat :=
  Nat.land (Nat.lor p o.allow) (not64 o.deny)

/-- `Role` from `servers/server.rs` (fields read by the permission
calculation and the cache). -/
structure Role where
  name : String
  permissions : OverrideField
  colour : Option String
  hoist : Bool
  rank : Int
deriving DecidableEq, Repr

/-- `Role::default()` (all fields `Default`). -/
def Role.default : Role := ⟨"", ⟨0, 0⟩, none, false, 0⟩

/-- `MemberCompositeKey` from `servers/server_member.rs`. -/
structure MemberCompositeKey where
  server : String
  user : String
deriving DecidableEq, Repr

/-- `Member` from `servers/server_member.rs`.  `joined_at` and `timeout`
are `iso8601_timestamp::Timestamp`s, modelled as integers; `roles` is a
`HashSet<String>`, modelled as a list; the `avatar` attachment is kept
abstract as its id. -/
structure Member where
  id : MemberCompositeKey
  joined_at : Int
  nickname : Option String
  avatar : Option String
  roles : List String
  timeout : Option Int
deriving DecidableEq, Repr

/-- `Member::new(server_id, user_id)`: fresh member with
`joined_at = Timestamp::now_utc()` (the explicit `now`). -/
def Member.new (server_id user_id : String) (now : Int) : Member :=
  ⟨⟨server_id, user_id⟩, now, none, none, [], none⟩

/-- `Member::in_timeout`: the timeout exists and is strictly later than
`Timestamp::now_utc()` (the explicit `now`). -/
def Member.in_timeout (m : Member) (now : Int) : Bool :=
  match m.timeout with
  | some t => now < t
  | none => false

/-- `Server` from `servers/server.rs` (the fields the cache and the
permission calculation read; the purely cosmetic attachment/flag fields
`icon`, `banner`, `flags`, `nsfw`, `analytics`, `discoverable`,
`categories`, `system_messages` are not read by any claim and are
omitted from the projection).  `roles` is a `HashMap<String, Role>`,
modelled as an association list whose lookup takes the first hit. -/
structure Server where
  id : String
  owner : String
  name : String
  description : Option String
  channels : List String
  roles : List (String × Role)
  default_permissions : Int
deriving DecidableEq, Repr

/-- First-hit association-list lookup (the model of `HashMap::get`). -/
def alookup {α : Type} (l : List (String × α)) (k : String) : Option α :=
  (l.find? (fun p => p.1 = k)).map (·.2)

/-- The member's role overrides with their ranks:
`member.roles.iter().filter_map(|id| server.roles.get(id).map(|r| (r.rank, r.permissions.into())))`. -/
def roleOverrides (server : Server) (member : Member) : List (Int × Override) :=
  member.roles.filterMap
    (fun rid => (alookup server.roles rid).map (fun r => (r.rank, r.permissions.toOverride)))

/-- Stable insertion into a rank-descending list: the new element goes
before the first element whose rank is not greater. -/
def insertRankDesc (x : Int × Override) : List (Int × Override) → List (Int × Override)
  | [] => [x]
  | y :: ys => if x.1 < y.1 then y :: insertRankDesc x ys else x :: y :: ys

/-- `roles.sort_by(|a, b| a.0.cmp(&b.0).reverse())`: a stable sort by
rank, descending (largest rank first, smallest rank last). -/
def sortRankDesc (l : List (Int × Override)) : List (Int × Override) :=
  l.foldr insertRankDesc []

/-- `calculate_server_permissions` from `permissions/mod.rs`.  The
constants `Permission::GrantAllSafe` and `ALLOW_IN_TIMEOUT` live in
`permissions/permission.rs`, which is not part of the sources; they are
passed as parameters `gas` and `ait`. -/
def calculate_server_permissions (gas ait : Nat) (now : Int)
    (server : Server) (member : Member) : Nat :=
  if member.id.server ≠ server.id then 0
  else if member.id.user = server.owner then gas
  else
    let perms := (sortRankDesc (roleOverrides server member)).foldl
      (fun p rv => applyOverride p rv.2) (u64ofInt server.default_permissions)
    if member.in_timeout now then Nat.land perms ait else perms

/-! ### Rate-limit governor (`volty-http/src/bucket.rs`)

`Instant`s and `Duration`s are modelled in milliseconds as `Nat`.  The
`used` counter is a `u8` in Rust; it is only ever incremented below the
limit (≤ 255) or set to `limit.max(remaining) - remaining` ≤ 255, so it
never wraps and a plain `Nat` is faithful. -/

/-- HTTP method (subset of `reqwest::Method` the classifier matches). -/
inductive Method
  | get | post | put | patch | delete
deriving DecidableEq, Repr

/-- `BucketKey` from `bucket.rs`. -/
inductive BucketKey
  | auth
  | authDelete
  | bots
  | channels (id : String)
  | defaultAvatar
  | messaging (id : String)
  | safety
  | safetyReport
  | servers (id : String)
  | swagger
  | users
  | userEdit (id : String)
  | any
deriving DecidableEq, Repr

/-- Splitting accumulator for `splitSlash`. -/
def splitSlashAux : List Char → List Char → List String
  | [], acc => [String.mk acc.reverse]
  | c :: cs, acc =>
    if c = '/' then String.mk acc.reverse :: splitSlashAux cs []
    else splitSlashAux cs (c :: acc)

/-- Rust's `path.split('/')`: the maximal `/`-free pieces, with empty
pieces kept (`"" ↦ [""]`, `"a/" ↦ ["a", ""]`). -/
def splitSlash (s : String) : List String := splitSlashAux s.data []

/-- `BucketKey::new(method, path)`: the fixed (method, path-segment)
classifier.  `path.split('/')` with missing segments defaulted to `""`. -/
def BucketKey.new (method : Method) (path : String) : BucketKey :=
  let segments := splitSlash path
  let s0 := segments.getD 0 ""
  let s1 := segments.getD 1 ""
  let s2 := segments.getD 2 ""
  if method = .patch ∧ s0 = "users" then .userEdit s1
  else if s0 = "users" ∧ s2 = "default_avatar" then .defaultAvatar
  else if s0 = "users" then .users
  else if s0 = "bots" then .bots
  else if method = .post ∧ s0 = "channels" ∧ s2 = "messages" then .messaging s1
  else if s0 = "channels" then .channels s1
  else if s0 = "servers" then .servers s1
  else if method = .delete ∧ s0 = "auth" then .authDelete
  else if s0 = "auth" then .auth
  else if s0 = "swagger" then .swagger
  else if s0 = "safety" ∧ s1 = "report" then .safetyReport
  else if s0 = "safety" then .safety
  else .any

/-- `BucketKey::limit`: the table-driven per-family limits. -/
def BucketKey.limit : BucketKey → Nat
  | .auth => 15
  | .authDelete => 255
  | .bots => 10
  | .channels _ => 15
  | .defaultAvatar => 255
  | .messaging _ => 10
  | .safety => 15
  | .safetyReport => 3
  | .servers _ => 5
  | .swagger => 100
  | .users => 20
  | .userEdit _ => 2
  | .any => 20

/-- A token bucket: current usage and the reset `Instant` (ms). -/
structure Bucket where
  used : Nat
  reset : Nat
deriving DecidableEq, Repr

/-- `Bucket::remaining(limit)` at time `now`: if the bucket has expired
(`now >= reset`), usage resets to 0 and the reset instant moves to
`now + 10s`; returns the updated bucket and `limit - used.min(limit)`. -/
def Bucket.remaining (b : Bucket) (limit now : Nat) : Bucket × Nat :=
  if b.reset ≤ now then ({ used := 0, reset := now + 10000 }, limit)
  else (b, limit - min b.used limit)

/-- Outcome of a `take`. -/
inductive TakeResult
  | ok
  | retryAfter (ms : Nat)
deriving DecidableEq, Repr

/-- `Bucket::deduct(limit)` at time `now`: if `remaining > 0`, increment
usage and return OK, else return `reset - now`. -/
def Bucket.deduct (b : Bucket) (limit now : Nat) : Bucket × TakeResult :=
  let p := b.remaining limit now
  if 0 < p.2 then ({ p.1 with used := p.1.used + 1 }, .ok)
  else (p.1, .retryAfter (p.1.reset - now))

/-- The `Buckets` table: `BucketKey → Bucket`, pointwise. -/
def BucketsMap : Type := BucketKey → Option Bucket

/-- The empty (fresh) table. -/
def BucketsMap.empty : BucketsMap := fun _ => none

/-- Pointwise insertion. -/
def BucketsMap.put (bs : BucketsMap) (key : BucketKey) (b : Bucket) : BucketsMap :=
  fun k => if k = key then some b else bs k

/-- `Buckets::take(key)` at time `now`: deduct from the existing bucket,
or create one with `used = 1, reset = now + 10s` and return OK. -/
def BucketsMap.take (bs : BucketsMap) (key : BucketKey) (now : Nat) :
    TakeResult × BucketsMap :=
  match bs key with
  | some b =>
    let p := b.deduct key.limit now
    (p.2, bs.put key p.1)
  | none => (.ok, bs.put key { used := 1, reset := now + 10000 })

/-- `Buckets::handle_response(key, response)` at time `now`: with the
three rate-limit headers given as already-extracted strings-parsed
values (`none` models a missing header or a failed `parse`), and the
`u8`/`u64` parse bounds made explicit, replace the bucket's usage with
`limit.max(remaining) - remaining` and its reset with
`now + reset_after` ms.  A missing bucket is left untouched. -/
def BucketsMap.handle_response (bs : BucketsMap) (key : BucketKey) (now : Nat)
    (limit? remaining? resetAfter? : Option Nat) : BucketsMap :=
  match limit?, remaining?, resetAfter? with
  | some l, some r, some ra =>
    if l ≤ 255 ∧ r ≤ 255 ∧ ra < U64 then
      match bs key with
      | some _ => bs.put key { used := max l r - r, reset := now + ra }
      | none => bs
    else bs
  | _, _, _ => bs

/-- A sequence of `take`s on one key at the given times, collecting the
results. -/
def BucketsMap.takeSeq (bs : BucketsMap) (key : BucketKey) :
    List Nat → List TakeResult × BucketsMap
  | [] => ([], bs)
  | t :: ts =>
    let p := bs.take key t
    let q := p.2.takeSeq key ts
    (p.1 :: q.1, q.2)

/-! ### HTTP facade error classification (`volty-http/src/lib.rs`, `error.rs`) -/

/-- The `ApiError` variants `handle_response` itself can produce, plus a
catch-all for a variant decoded from an error body (`error.rs` carries
dozens of body-decoded variants; which one is decoded is irrelevant to
the claims, so a decoded error is kept whole as `decoded`). -/
inductive ApiErrorM
  | labelMe
  | retryAfter (ms : Nat)
  | failedValidation
  | decoded (tag : String)
deriving DecidableEq, Repr

/-- `HttpError` from `error.rs`: `Api`, `Reqwest` (the transport kind,
an `Arc<reqwest::Error>`), `Serde` (decode failure). -/
inductive HttpErrorM
  | api (e : ApiErrorM)
  | reqwest
  | serde
deriving DecidableEq, Repr

/-- Whether an `HttpError` is the transport (`Reqwest`) kind. -/
def HttpErrorM.isTransport : HttpErrorM → Bool
  | .reqwest => true
  | _ => false

/-- A received HTTP response: status code, and the body text
(`none` models `response.text().await` failing with a transport error). -/
structure ResponseM where
  status : Nat
  text : Option String
deriving DecidableEq, Repr

/-- `Http::handle_response` (lib.rs 104–137), as outcome classification.
`response = none` models `request.send()` failing with a
`reqwest::Error` (no response received).  `decodeBody` models
`serde_json::from_str::<T>`, `decodeApi` models
`serde_json::from_str::<ApiError>`, and `retryAfterBody` models reading
`retry_after` out of a 429 body (`none` = missing/undecodable, default
10000 ms).  The `buckets.handle_response` observation on the bucket
table is `BucketsMap.handle_response` above; this function is the value
classification. -/
def httpHandleResponse {T : Type} (decodeBody : String → Option T)
    (decodeApi : String → Option ApiErrorM) (retryAfterBody : String → Option Nat)
    (response : Option ResponseM) : Except HttpErrorM T :=
  match response with
  | some r =>
    match r.text with
    | none => .error .reqwest
    | some text =>
      if 200 ≤ r.status ∧ r.status < 300 then
        match decodeBody text with
        | some t => .ok t
        | none => .error .serde
      else if r.status = 429 then
        .error (.api (.retryAfter ((retryAfterBody text).getD 10000)))
      else
        match decodeApi text with
        | some e => .error (.api e)
        | none => .error .serde
  | none => .error (.api .labelMe)

/-! ### Message-send validation (`routes/channels/message_send.rs`)

The `validator` crate's `length` check on a `String` counts characters;
on an `Option` it only fires when the value is present; on a `Vec` it
counts elements.  `Reply`/`Interactions` carry no validation attribute.
The `Masquerade` type lives in `channels/message.rs`, which is not part
of the sources; its nested `#[validate]` check is passed in as the
parameter `maskOk`, and the colour regex `RE_COLOUR` as `colourOk`. -/

/-- `SendableEmbed` from `message_send.rs`. -/
structure SendableEmbed where
  icon_url : Option String
  url : Option String
  title : Option String
  description : Option String
  media : Option String
  colour : Option String
deriving DecidableEq, Repr

/-- A `length(min, max)` check on an optional string field. -/
def optLen (lo hi : Nat) : Option String → Bool
  | some s => lo ≤ s.length ∧ s.length ≤ hi
  | none => true

/-- The derived `Validate` for `SendableEmbed`: `icon_url` 1–128,
`title` 1–100, `description` 1–2000, `colour` 1–128 and `RE_COLOUR`. -/
def SendableEmbed.validate (colourOk : String → Bool) (e : SendableEmbed) : Bool :=
  optLen 1 128 e.icon_url && optLen 1 100 e.title && optLen 1 2000 e.description &&
    (optLen 1 128 e.colour && (match e.colour with | some c => colourOk c | none => true))

/-- `SendableMessage` from `message_send.rs`.  `Masquerade` is kept
abstract (`Option Mask` for a type parameter `Mask`); replies and
interactions carry no validation and are counted only. -/
structure SendableMessage (Mask : Type) where
  content : Option String
  attachments : Option (List String)
  replies : Option (List String)
  embeds : Option (List SendableEmbed)
  masquerade : Option Mask
  interactions : Option Unit
deriving Repr

/-- `SendableMessage::default()` / `SendableMessage::new()`. -/
def SendableMessage.new {Mask : Type} : SendableMessage Mask :=
  ⟨none, none, none, none, none, none⟩

/-- A `length(min, max)` check on an optional list field. -/
def optListLen {α : Type} (lo hi : Nat) : Option (List α) → Bool
  | some l => lo ≤ l.length ∧ l.length ≤ hi
  | none => true

/-- The derived `Validate` for `SendableMessage`: `content` length
0–2000, `attachments` 1–128 entries, `embeds` 1–10 entries (their
contents carry no nested `#[validate]`), and the nested validation of
`masquerade`. -/
def SendableMessage.validate {Mask : Type} (maskOk : Mask → Bool)
    (m : SendableMessage Mask) : Bool :=
  optLen 0 2000 m.content && optListLen 1 128 m.attachments &&
    optListLen 1 10 m.embeds &&
    (match m.masquerade with | some mask => maskOk mask | none => true)

/-- What `Http::send_message` produces before the response arrives: the
emitted request (its bucket key and path), or the error that stopped it.
`data.validate()?` surfaces a validation failure as
`Api(FailedValidation)`; `Http::request` classifies the path
`channels/{channel_id}/messages` into a bucket and `take`s it, a refusal
surfacing as `Api(RetryAfter)`. -/
structure RequestM where
  bucket : BucketKey
  path : String
deriving DecidableEq, Repr

/-- `Http::send_message` up to emitting the request (message_send.rs
149–161 together with `Http::request`, lib.rs 88–96). -/
def send_message {Mask : Type} (maskOk : Mask → Bool) (now : Nat)
    (bs : BucketsMap) (channel_id : String) (m : SendableMessage Mask) :
    Except HttpErrorM (RequestM × BucketsMap) :=
  if ¬ m.validate maskOk then .error (.api .failedValidation)
  else
    let path := "channels/" ++ channel_id ++ "/messages"
    let key := BucketKey.new .post path
    match bs.take key now with
    | (.retryAfter d, _) => .error (.api (.retryAfter d))
    | (.ok, bs') => .ok (⟨key, path⟩, bs')

/-! ### The cache data model (`volty-ws/src/cache.rs` and `volty-types`)

The cache is modelled as the projection of `InnerCache` onto the fields
the claims read: `user_id`, `user_mention`, `servers`, `channels`,
`emojis`, `members` and `user_dms`.  The `users` and `messages` moka
LRUs and the `user: RwLock<Option<User>>` field are not part of the
projection: no event arm reads them to decide an update of a projected
field, so each arm's effect on the projection is exact.  Event payloads
that only feed the unprojected fields (message bodies, user patches) are
likewise dropped from the event constructors. -/

/-- `RelationshipStatus` from `users/user.rs`. -/
inductive RelationshipStatus
  | none | user | friend | outgoing | incoming | blocked | blockedOther
deriving DecidableEq, Repr

/-- The projection of `User` the cache's `Ready` arm reads: the id and
the relationship tag (the session user is the one whose relationship is
`User`). -/
structure UserM where
  id : String
  relationship : Option RelationshipStatus
deriving DecidableEq, Repr

/-- `EmojiParent` from `media/emoji.rs`. -/
inductive EmojiParent
  | server (id : String)
  | detached
deriving DecidableEq, Repr

/-- `EmojiParent::id`. -/
def EmojiParent.id : EmojiParent → Option String
  | .server id => some id
  | .detached => none

/-- `Emoji` from `media/emoji.rs`. -/
structure Emoji where
  id : String
  parent : EmojiParent
  creator_id : String
  name : String
  animated : Bool
  nsfw : Bool
deriving DecidableEq, Repr

/-- `Channel` from `channels/channel.rs`.  `recipients` sets are lists;
`icon` attachments are kept abstract as their id. -/
inductive Channel
  | savedMessages (id : String) (user : String)
  | directMessage (id : String) (active : Bool) (recipients : List String)
      (last_message_id : Option String)
  | group (id : String) (name : String) (owner : String)
      (description : Option String) (recipients : List String)
      (icon : Option String) (last_message_id : Option String)
      (permissions : Option Int) (nsfw : Bool)
  | textChannel (id : String) (server_id : String) (name : String)
      (description : Option String) (icon : Option String)
      (last_message_id : Option String)
      (default_permissions : Option OverrideField)
      (role_permissions : List (String × OverrideField)) (nsfw : Bool)
  | voiceChannel (id : String) (server_id : String) (name : String)
      (description : Option String) (icon : Option String)
      (default_permissions : Option OverrideField)
      (role_permissions : List (String × OverrideField)) (nsfw : Bool)
deriving DecidableEq, Repr

/-- `Channel::id`. -/
def Channel.id : Channel → String
  | .savedMessages id _ => id
  | .directMessage id _ _ _ => id
  | .group id _ _ _ _ _ _ _ _ => id
  | .textChannel id _ _ _ _ _ _ _ _ => id
  | .voiceChannel id _ _ _ _ _ _ _ => id

/-- `Channel::server_id`. -/
def Channel.server_id : Channel → Option String
  | .textChannel _ sid _ _ _ _ _ _ _ => some sid
  | .voiceChannel _ sid _ _ _ _ _ _ => some sid
  | _ => Option.none

/-- The `Message` arm's channel update: set `last_message_id` on the
variants that carry it (`DirectMessage`, `Group`, `TextChannel`). -/
def Channel.setLastMessageId (mid : String) : Channel → Channel
  | .directMessage id active recips _ => .directMessage id active recips (some mid)
  | .group id name owner de recips icon _ perms nsfw =>
      .group id name owner de recips icon (some mid) perms nsfw
  | .textChannel id sid name de icon _ dp rp nsfw =>
      .textChannel id sid name de icon (some mid) dp rp nsfw
  | c => c

/-- `PartialChannel` from `channels/channel.rs`. -/
structure PartialChannel where
  name : Option String
  owner : Option String
  description : Option String
  icon : Option String
  nsfw : Option Bool
  active : Option Bool
  permissions : Option Int
  role_permissions : Option (List (String × OverrideField))
  default_permissions : Option OverrideField
  last_message_id : Option String
deriving DecidableEq, Repr

/-- `PartialChannel::apply`, translated arm by arm (note it never
changes a channel's variant, its `id`, its `server_id` or its
`recipients`). -/
def PartialChannel.apply (p : PartialChannel) : Channel → Channel
  | .savedMessages id user => .savedMessages id user
  | .directMessage id active recips lmid =>
      .directMessage id (p.active.getD active) recips
        (if p.last_message_id.isSome then p.last_message_id else lmid)
  | .group id name owner de recips icon lmid perms nsfw =>
      .group id (p.name.getD name) (p.owner.getD owner)
        (if p.description.isSome then p.description else de) recips
        (if p.icon.isSome then p.icon else icon)
        (if p.last_message_id.isSome then p.last_message_id else lmid)
        (if p.permissions.isSome then p.permissions else perms)
        (p.nsfw.getD nsfw)
  | .textChannel id sid name de icon lmid dp rp nsfw =>
      .textChannel id sid (p.name.getD name)
        (if p.description.isSome then p.description else de)
        (if p.icon.isSome then p.icon else icon)
        (if p.last_message_id.isSome then p.last_message_id else lmid)
        (if p.default_permissions.isSome then p.default_permissions else dp)
        (p.role_permissions.getD rp) (p.nsfw.getD nsfw)
  | .voiceChannel id sid name de icon dp rp nsfw =>
      .voiceChannel id sid (p.name.getD name)
        (if p.description.isSome then p.description else de)
        (if p.icon.isSome then p.icon else icon)
        (if p.default_permissions.isSome then p.default_permissions else dp)
        (p.role_permissions.getD rp) (p.nsfw.getD nsfw)

/-- `FieldsChannel` from `channels/channel.rs`. -/
inductive FieldsChannel
  | description | icon | defaultPermissions
deriving DecidableEq, Repr

/-- `FieldsChannel::remove`. -/
def FieldsChannel.remove : FieldsChannel → Channel → Channel
  | .description, .group id name owner _ recips ic lmid perms nsfw =>
      .group id name owner Option.none recips ic lmid perms nsfw
  | .description, .textChannel id sid name _ ic lmid dp rp nsfw =>
      .textChannel id sid name Option.none ic lmid dp rp nsfw
  | .description, .voiceChannel id sid name _ ic dp rp nsfw =>
      .voiceChannel id sid name Option.none ic dp rp nsfw
  | .icon, .group id name owner de recips _ lmid perms nsfw =>
      .group id name owner de recips Option.none lmid perms nsfw
  | .icon, .textChannel id sid name de _ lmid dp rp nsfw =>
      .textChannel id sid name de Option.none lmid dp rp nsfw
  | .icon, .voiceChannel id sid name de _ dp rp nsfw =>
      .voiceChannel id sid name de Option.none dp rp nsfw
  | .defaultPermissions, .textChannel id sid name de ic lmid _ rp nsfw =>
      .textChannel id sid name de ic lmid Option.none rp nsfw
  | .defaultPermissions, .voiceChannel id sid name de ic _ rp nsfw =>
      .voiceChannel id sid name de ic Option.none rp nsfw
  | _, c => c

/-- `PartialServer` (the `OptionalStruct` of `Server`, restricted to the
projected fields): `apply_options` with `opt_some_priority` replaces
each field the patch carries. -/
structure PartialServer where
  id : Option String
  owner : Option String
  name : Option String
  description : Option String
  channels : Option (List String)
  roles : Option (List (String × Role))
  default_permissions : Option Int
deriving DecidableEq, Repr

/-- `Server::apply_options`. -/
def PartialServer.apply (p : PartialServer) (s : Server) : Server :=
  { id := p.id.getD s.id
    owner := p.owner.getD s.owner
    name := p.name.getD s.name
    description := if p.description.isSome then p.description else s.description
    channels := p.channels.getD s.channels
    roles := p.roles.getD s.roles
    default_permissions := p.default_permissions.getD s.default_permissions }

/-- `FieldsServer`, restricted to the projected fields (`Categories`,
`SystemMessages`, `Icon`, `Banner` clear unprojected fields and act as
the identity here). -/
inductive FieldsServer
  | description | categories | systemMessages | icon | banner
deriving DecidableEq, Repr

/-- `FieldsServer::remove` on the projection. -/
def FieldsServer.remove : FieldsServer → Server → Server
  | .description, s => { s with description := Option.none }
  | _, s => s

/-- `PartialRole` (the `OptionalStruct` of `Role`). -/
structure PartialRole where
  name : Option String
  permissions : Option OverrideField
  colour : Option String
  hoist : Option Bool
  rank : Option Int
deriving DecidableEq, Repr

/-- `Role::apply_options`. -/
def PartialRole.apply (p : PartialRole) (r : Role) : Role :=
  { name := p.name.getD r.name
    permissions := p.permissions.getD r.permissions
    colour := if p.colour.isSome then p.colour else r.colour
    hoist := p.hoist.getD r.hoist
    rank := p.rank.getD r.rank }

/-- `FieldsRole` from `servers/server.rs`. -/
inductive FieldsRole
  | colour
deriving DecidableEq, Repr

/-- `FieldsRole::remove`. -/
def FieldsRole.remove : FieldsRole → Role → Role
  | .colour, r => { r with colour := Option.none }

/-- `PartialMember` (the `OptionalStruct` of `Member`). -/
structure PartialMember where
  id : Option MemberCompositeKey
  joined_at : Option Int
  nickname : Option String
  avatar : Option String
  roles : Option (List String)
  timeout : Option Int
deriving DecidableEq, Repr

/-- `Member::apply_options`. -/
def PartialMember.apply (p : PartialMember) (m : Member) : Member :=
  { id := p.id.getD m.id
    joined_at := p.joined_at.getD m.joined_at
    nickname := if p.nickname.isSome then p.nickname else m.nickname
    avatar := if p.avatar.isSome then p.avatar else m.avatar
    roles := p.roles.getD m.roles
    timeout := if p.timeout.isSome then p.timeout else m.timeout }

/-- `FieldsMember` from `servers/server_member.rs`. -/
inductive FieldsMember
  | nickname | avatar | roles | timeout
deriving DecidableEq, Repr

/-- `FieldsMember::remove`. -/
def FieldsMember.remove : FieldsMember → Member → Member
  | .nickname, m => { m with nickname := Option.none }
  | .avatar, m => { m with avatar := Option.none }
  | .roles, m => { m with roles := [] }
  | .timeout, m => { m with timeout := Option.none }

/-- Modelled from the spec: `Message` lives in
`channels/message.rs`, which is not part of the sources.  Per §3 a
message carries an identity, a channel-id, an author-id and optional
content; the cache's `Message` arm reads only `id` and `channel_id`. -/
structure MessageM where
  id : String
  channel_id : String
  author_id : String
  content : Option String
deriving DecidableEq, Repr

/-- A per-server member table (`MemberCache`): either a bounded LRU
(`Partial`, `full = false`) or a promoted full map (`full = true`).  The
moka LRU's capacity-driven eviction has no specified trigger and no
claim depends on it, so both flavours carry a plain pointwise map. -/
structure MemberTable where
  full : Bool
  entries : String → Option Member

/-- The empty (fresh) member table, `MemberCache::default()`. -/
def MemberTable.empty : MemberTable := ⟨false, fun _ => none⟩

/-- The projection of `InnerCache` (see the section comment). -/
structure CacheState where
  userId : Option String
  userMention : Option String
  servers : String → Option Server
  channels : String → Option Channel
  emojis : String → Option Emoji
  members : String → Option MemberTable
  user_dms : String → Option String

/-- The initial cache (`InnerCache::default()`). -/
def CacheState.init : CacheState :=
  ⟨none, none, fun _ => none, fun _ => none, fun _ => none, fun _ => none, fun _ => none⟩

/-- Pointwise map insertion. -/
def fput {α : Type} (m : String → Option α) (k : String) (v : α) :
    String → Option α :=
  fun x => if x = k then some v else m x

/-- Pointwise map removal. -/
def fdel {α : Type} (m : String → Option α) (k : String) :
    String → Option α :=
  fun x => if x = k then none else m x

/-- Association-list insertion keeping keys unique (the model of
`HashMap::insert` / `Entry::or_default` on a role table). -/
def aput {α : Type} (l : List (String × α)) (k : String) (v : α) :
    List (String × α) :=
  match l with
  | [] => [(k, v)]
  | (k', v') :: rest => if k' = k then (k, v) :: rest else (k', v') :: aput rest k v

/-- `ServerMessage` as `InnerCache::update` matches it (cache.rs; the
older of the repository's two event schemas: `ServerMemberJoin` carries
a user id, `ServerMemberLeave` carries no reason, and there are no
webhook / voice / role-rank arms).  Payloads read only by the
unprojected `users`/`messages` caches are dropped (see the section
comment). -/
inductive ServerMsg
  | bulk (v : List ServerMsg)
  | authenticated
  | ready (users : List UserM) (servers : List Server) (channels : List Channel)
      (members : List Member) (emojis : Option (List Emoji))
  | pong
  | message (m : MessageM)
  | messageUpdate (id : String) (channel_id : String)
  | messageAppend (id : String) (channel_id : String)
  | messageDelete (id : String) (channel_id : String)
  | messageReact (id : String) (channel_id : String) (user_id : String)
      (emoji_id : String)
  | messageUnreact (id : String) (channel_id : String) (user_id : String)
      (emoji_id : String)
  | messageRemoveReaction (id : String) (channel_id : String) (emoji_id : String)
  | bulkMessageDelete (channel_id : String) (ids : List String)
  | channelCreate (c : Channel)
  | channelUpdate (id : String) (data : PartialChannel) (clear : List FieldsChannel)
  | channelDelete (id : String)
  | channelGroupJoin (id : String) (user_id : String)
  | channelGroupLeave (id : String) (user_id : String)
  | channelStartTyping (id : String) (user_id : String)
  | channelStopTyping (id : String) (user_id : String)
  | channelAck (id : String) (user_id : String) (message_id : String)
  | serverCreate (id : String) (server : Server) (channels : List Channel)
      (emojis : List Emoji)
  | serverUpdate (id : String) (data : PartialServer) (clear : List FieldsServer)
  | serverDelete (id : String)
  | serverMemberUpdate (id : MemberCompositeKey) (data : PartialMember)
      (clear : List FieldsMember)
  | serverMemberJoin (id : String) (user_id : String)
  | serverMemberLeave (id : String) (user_id : String)
  | serverRoleUpdate (id : String) (role_id : String) (data : PartialRole)
      (clear : List FieldsRole)
  | serverRoleDelete (id : String) (role_id : String)
  | userUpdate (id : String)
  | userRelationship (id : String) (user : UserM)
  | userSettingsUpdate
  | userPlatformWipe (user_id : String)
  | emojiCreate (e : Emoji)
  | emojiDelete (id : String)
  | auth

/-- The session user in a `Ready` payload: the user whose relationship
tag is `User` (`users.iter().find(...)`). -/
def readySelf (users : List UserM) : Option UserM :=
  users.find? (fun u => u.relationship = some .user)

/-- Deduplication of a channel list by id, keeping the last occurrence
(collecting into a `HashMap` keeps the last insertion for each key; the
map's iteration order is unspecified, and is modelled as the order of
the kept occurrences). -/
def dedupChannels (l : List Channel) : List Channel :=
  l.foldr (fun c acc => if acc.any (fun c' => c'.id = c.id) then acc else c :: acc) []

/-- The `Ready` arm's `user_dms` seeding: for every `DirectMessage`
insert `other → id` where `other` is the first recipient different from
the session user's id; `None` models the `.unwrap()` panic when a
`DirectMessage` has no such recipient. -/
def seedUserDms (uid : String) (cs : List Channel) :
    Option (String → Option String) :=
  cs.foldl
    (fun acc c =>
      match acc, c with
      | some m, .directMessage id _ recips _ =>
        match recips.find? (fun i => i ≠ uid) with
        | some other => some (fput m other id)
        | none => none
      | some m, _ => some m
      | none, _ => none)
    (some (fun _ => none))

/-- The `Ready` arm's member tables: group the snapshot's members by
server id into fresh `Partial` tables. -/
def readyMembers (ms : List Member) : String → Option MemberTable :=
  ms.foldl
    (fun acc m =>
      let t := (acc m.id.server).getD MemberTable.empty
      fput acc m.id.server { t with entries := fput t.entries m.id.user m })
    (fun _ => none)

/-- Collection of a list into a map keyed by `key`, later entries
overwriting earlier ones (`collect::<HashMap<_, _>>()`). -/
def listToMap {α : Type} (key : α → String) (l : List α) : String → Option α :=
  fun k => (l.reverse).find? (fun a => key a = k)

mutual

/-- `InnerCache::update` (cache.rs 358–706) on the projected state.
`none` models a panic (`expect` / `unwrap`).  `now` stands for
`Timestamp::now_utc()` inside `Member::new`.  Arms that only touch the
unprojected `users`/`messages` caches are the identity on the
projection (`UserUpdate` can in addition panic on `self.user_id()` when
the target is cached and no `Ready` ran; that path lies outside the
projection and outside every claim, and is not modelled). -/
def update (now : Int) (e : ServerMsg) (s : CacheState) : Option CacheState :=
  match e with
  | .bulk v => updateAll now v s
  | .authenticated => some s
  | .ready users servers channels members emojis =>
    match readySelf users with
    | none => none
    | some user =>
      match seedUserDms user.id (dedupChannels channels) with
      | none => none
      | some dms =>
        some
          { userId := some (s.userId.getD user.id)
            userMention := some (s.userMention.getD ("<@" ++ user.id ++ ">"))
            servers := listToMap Server.id servers
            channels := fun k => (dedupChannels channels).find? (fun c => c.id = k)
            emojis := listToMap Emoji.id (emojis.getD [])
            members := readyMembers members
            user_dms := dms }
  | .pong => some s
  | .message m =>
    some { s with channels := fun k =>
      if k = m.channel_id then (s.channels k).map (Channel.setLastMessageId m.id)
      else s.channels k }
  | .messageUpdate _ _ => some s
  | .messageAppend _ _ => some s
  | .messageDelete _ _ => some s
  | .messageReact _ _ _ _ => some s
  | .messageUnreact _ _ _ _ => some s
  | .messageRemoveReaction _ _ _ => some s
  | .bulkMessageDelete _ _ => some s
  | .channelCreate c =>
    match c with
    | .directMessage id _ recips _ =>
      match s.userId with
      | none => none
      | some uid =>
        match recips.find? (fun i => i ≠ uid) with
        | none => none
        | some other =>
          some { s with
            user_dms := fput s.user_dms other id
            channels := fput s.channels id c }
    | _ => some { s with channels := fput s.channels c.id c }
  | .channelUpdate id data clear =>
    some { s with channels := fun k =>
      if k = id then
        (s.channels k).map (fun c => clear.foldl (fun c f => f.remove c) (data.apply c))
      else s.channels k }
  | .channelDelete id =>
    match s.channels id with
    | some (.directMessage _ _ recips _) =>
      match s.userId with
      | none => none
      | some uid =>
        match recips.find? (fun i => i ≠ uid) with
        | none => none
        | some other =>
          some { s with
            channels := fdel s.channels id
            user_dms := fdel s.user_dms other }
    | _ => some { s with channels := fdel s.channels id }
  | .channelGroupJoin id user_id =>
    some { s with channels := fun k =>
      if k = id then
        (s.channels k).map (fun c =>
          match c with
          | .group gid name owner de recips ic lmid perms nsfw =>
            .group gid name owner de
              (if user_id ∈ recips then recips else recips ++ [user_id])
              ic lmid perms nsfw
          | c => c)
      else s.channels k }
  | .channelGroupLeave id user_id =>
    some { s with channels := fun k =>
      if k = id then
        (s.channels k).map (fun c =>
          match c with
          | .group gid name owner de recips ic lmid perms nsfw =>
            .group gid name owner de (recips.erase user_id) ic lmid perms nsfw
          | c => c)
      else s.channels k }
  | .channelStartTyping _ _ => some s
  | .channelStopTyping _ _ => some s
  | .channelAck _ _ _ => some s
  | .serverCreate id server channels emojis =>
    match s.userId with
    | none => none
    | some uid =>
      some { s with
        servers := fput s.servers id server
        channels := channels.foldl (fun m c => fput m c.id c) s.channels
        emojis := emojis.foldl (fun m e => fput m e.id e) s.emojis
        members := fput s.members id
          { full := false
            entries := fput (fun _ => none) uid (Member.new id uid now) } }
  | .serverUpdate id data clear =>
    some { s with servers := fun k =>
      if k = id then
        (s.servers k).map (fun sv => clear.foldl (fun sv f => f.remove sv) (data.apply sv))
      else s.servers k }
  | .serverDelete id =>
    some { s with
      servers := fdel s.servers id
      members := fdel s.members id
      channels := fun k =>
        match s.channels k with
        | some c => if c.server_id = some id then none else some c
        | none => none
      emojis := fun k =>
        match s.emojis k with
        | some e => if e.parent.id = some id then some e else none
        | none => none }
  | .serverMemberUpdate key data clear =>
    some { s with members := fun k =>
      if k = key.server then
        (s.members k).map (fun t =>
          match t.entries key.user with
          | some mem =>
            let mem := clear.foldl (fun m f => f.remove m) (data.apply mem)
            { t with entries := fput t.entries key.user mem }
          | none => t)
      else s.members k }
  | .serverMemberJoin id user_id =>
    some { s with members := fun k =>
      if k = id then
        (s.members k).map (fun t =>
          { t with entries := fput t.entries user_id (Member.new id user_id now) })
      else s.members k }
  | .serverMemberLeave id user_id =>
    if s.userId = some user_id then
      match s.servers id with
      | some server =>
        some { s with
          servers := fdel s.servers id
          channels := fun k => if k ∈ server.channels then none else s.channels k
          members := fdel s.members id }
      | none => some s
    else
      some { s with members := fun k =>
        if k = id then
          (s.members k).map (fun t => { t with entries := fdel t.entries user_id })
        else s.members k }
  | .serverRoleUpdate id role_id data clear =>
    some { s with servers := fun k =>
      if k = id then
        (s.servers k).map (fun sv =>
          let role := (alookup sv.roles role_id).getD Role.default
          let role := clear.foldl (fun r f => f.remove r) (data.apply role)
          { sv with roles := aput sv.roles role_id role })
      else s.servers k }
  | .serverRoleDelete id role_id =>
    some { s with
      servers := fun k =>
        if k = id then
          (s.servers k).map (fun sv =>
            { sv with roles := sv.roles.filter (fun p => p.1 ≠ role_id) })
        else s.servers k
      members := fun k =>
        if k = id then
          (s.members k).map (fun t =>
            { t with entries := fun u =>
                (t.entries u).map (fun m => { m with roles := m.roles.erase role_id }) })
        else s.members k }
  | .userUpdate _ => some s
  | .userRelationship _ _ => some s
  | .userSettingsUpdate => some s
  | .userPlatformWipe _ => some s
  | .emojiCreate e => some { s with emojis := fput s.emojis e.id e }
  | .emojiDelete id => some { s with emojis := fdel s.emojis id }
  | .auth => some s

/-- The `Bulk` arm: apply the nested events in order, stopping at a
panic. -/
def updateAll (now : Int) (es : List ServerMsg) (s : CacheState) : Option CacheState :=
  match es with
  | [] => some s
  | e :: rest =>
    match update now e s with
    | some s' => updateAll now rest s'
    | none => none

end

/-! ### Concrete states for the claims about the cache -/

/-- Emoji of server `s1`. -/
def c1Emoji1 : Emoji := ⟨"e1", .server "s1", "u1", "one", false, false⟩

/-- Emoji of server `s2`. -/
def c1Emoji2 : Emoji := ⟨"e2", .server "s2", "u1", "two", false, false⟩

/-- Text channel of server `s1`. -/
def c1Chan1 : Channel := .textChannel "c1" "s1" "general" none none none none [] false

/-- Text channel of server `s2`. -/
def c1Chan2 : Channel := .textChannel "c2" "s2" "general" none none none none [] false

/-- Server `s1` (channel list `["c1"]`). -/
def c1Server1 : Server := ⟨"s1", "u1", "one", none, ["c1"], [], 0⟩

/-- Server `s2` (channel list `["c2"]`). -/
def c1Server2 : Server := ⟨"s2", "u1", "two", none, ["c2"], [], 0⟩

/-- A cache holding two servers, their channels and member tables, and
one emoji of each server. -/
def c1State : CacheState :=
  { userId := some "u1"
    userMention := some "<@u1>"
    servers := fput (fput (fun _ => none) "s1" c1Server1) "s2" c1Server2
    channels := fput (fput (fun _ => none) "c1" c1Chan1) "c2" c1Chan2
    emojis := fput (fput (fun _ => none) "e1" c1Emoji1) "e2" c1Emoji2
    members := fput (fput (fun _ => none) "s1" MemberTable.empty) "s2" MemberTable.empty
    user_dms := fun _ => none }

/-! ### Gateway session (`volty-ws/src/lib.rs`)

`WebSocket::next` is modelled as a discrete-time simulation of its loop
under the scenario of claim C9: the connection accepts every write
(sends succeed immediately) and delivers no inbound frame, so the
heartbeat arm always wins the `select!`.  Instants are milliseconds. -/

/-- `Ping` from `ws/common.rs`. -/
inductive PingData
  | binary (bytes : List Nat)
  | number (n : Nat)
deriving DecidableEq, Repr

/-- `ClientMessage` from `ws/client.rs`. -/
inductive ClientMessage
  | authenticate (token : String)
  | beginTyping (channel : String)
  | endTyping (channel : String)
  | ping (data : PingData) (responded : Option Unit)
deriving DecidableEq, Repr

/-- The frame `WebSocket::send_ping` sends. -/
def pingFrame : ClientMessage := .ping (.number 0) none

/-- `HEARTBEAT` (ms). -/
def HEARTBEAT : Nat := 30000

/-- The observable gateway-session state: the simulated clock, the
`last_message` instant, the frames sent and the number of reconnects. -/
structure GatewayState where
  now : Nat
  last : Nat
  sent : List ClientMessage
  reconnects : Nat
deriving DecidableEq, Repr

/-- The session right after `connect` (clock origin at the connect). -/
def GatewayState.init : GatewayState := ⟨0, 0, [], 0⟩

/-- One iteration of the `next()` loop (lib.rs 131–163) with no inbound
frame available:

1. if `now - last_message ≥ 2 * HEARTBEAT`, `reconnect()` (which runs
   `update_last_message`, so `last := now`);
2. sleep `HEARTBEAT - min(elapsed, HEARTBEAT)` ms, after which the
   heartbeat arm wins the `select!`;
3. `send_ping()`: the write succeeds, and `send` runs
   `update_last_message` after the write (`last := now`). -/
def gatewayStep (g : GatewayState) : GatewayState :=
  let g :=
    if HEARTBEAT * 2 ≤ g.now - g.last then
      { g with reconnects := g.reconnects + 1, last := g.now }
    else g
  let wait := HEARTBEAT - min (g.now - g.last) HEARTBEAT
  let t := g.now + wait
  { g with now := t, sent := g.sent ++ [pingFrame], last := t }

/-- `k` iterations of the loop from the fresh session. -/
def gatewayRun : Nat → GatewayState
  | 0 => GatewayState.init
  | k + 1 => gatewayStep (gatewayRun k)

/-! ## Theorems -/

set_option synthInstance.maxSize 1024

/-- C1: applying `ServerDelete{id=s1}` removes `servers[s1]`,
`members[s1]` and the channel of `s1` while keeping the channel of
`s2` — but the emoji cascade is inverted in the code: the retain
predicate `e.parent.id() == Some(&id)` KEEPS the deleted server's emoji
`e1` and REMOVES the unrelated emoji `e2`, contradicting the claimed
cascade.  This theorem evaluates the code at the failing input. -/
theorem c1_server_delete_cascade :
    (update 0 (.serverDelete "s1") c1State).map
        (fun s => (s.servers "s1", (s.members "s1").isSome, s.channels "c1",
          s.channels "c2", s.emojis "e1", s.emojis "e2"))
      = some (none, false, none, some c1Chan2, some c1Emoji1, none) := by
  simp only [update]
  decide

/-- C4: on the fresh `Messaging("x")` bucket, ten takes return OK and
the eleventh is refused with 10 s to wait; observing headers
`limit=10, remaining=5, reset-after=1000` sets the usage to
`limit - remaining = 5`; the next five takes (the 12th–16th) then
succeed and the 17th is refused with the reconciled 1 s wait. -/
theorem c4_header_reconcile :
    (BucketsMap.empty.takeSeq (.messaging "x") (List.replicate 11 0)).1
        = List.replicate 10 .ok ++ [.retryAfter 10000] ∧
      (((BucketsMap.empty.takeSeq (.messaging "x") (List.replicate 11 0)).2.handle_response
          (.messaging "x") 0 (some 10) (some 5) (some 1000)) (.messaging "x")).map Bucket.used
        = some 5 ∧
      (((BucketsMap.empty.takeSeq (.messaging "x") (List.replicate 11 0)).2.handle_response
          (.messaging "x") 0 (some 10) (some 5) (some 1000)).takeSeq
          (.messaging "x") (List.replicate 6 0)).1
        = List.replicate 5 .ok ++ [.retryAfter 1000] := by
  refine ⟨by decide, by decide, by decide⟩

/-- C5 counterexample: when `request.send()` fails with a transport
error (no response received), `Http::handle_response` returns
`Api(LabelMe)` — an `Api` error, not the `Transport` (`Reqwest`) kind,
contradicting the claim. -/
theorem c5_counterexample :
    httpHandleResponse (T := Unit) (fun _ => none) (fun _ => none) (fun _ => none) none
        = .error (.api .labelMe) ∧
      (HttpErrorM.api .labelMe).isTransport = false :=
  ⟨rfl, rfl⟩

/-- C5 amended: a transport failure of `send` (no response) surfaces as
the `Api` error `LabelMe`; the `Transport` (`Reqwest`) kind arises when
reading the body of a received response fails. -/
theorem c5_transport_classification {T : Type} (decodeBody : String → Option T)
    (decodeApi : String → Option ApiErrorM) (retryBody : String → Option Nat) :
    httpHandleResponse decodeBody decodeApi retryBody none = .error (.api .labelMe) ∧
      ∀ r : ResponseM, r.text = none →
        httpHandleResponse decodeBody decodeApi retryBody (some r) = .error .reqwest := by
  refine ⟨rfl, fun r h => ?_⟩
  obtain ⟨st, txt⟩ := r
  cases h
  rfl

/-- C5 amended, witness at a concrete input: a 200 response whose body
read fails is classified as `Reqwest`. -/
theorem c5_transport_classification_witness :
    httpHandleResponse (T := Unit) (fun _ => none) (fun _ => none) (fun _ => none)
        (some ⟨200, none⟩) = .error .reqwest :=
  (c5_transport_classification (T := Unit) (fun _ => none) (fun _ => none)
    (fun _ => none)).2 ⟨200, none⟩ rfl

/-- The message with empty content and nothing else. -/
def c6Msg : SendableMessage Unit := { SendableMessage.new with content := some "" }

/-- C6 counterexample: the declared content bound is `min = 0`, so a
body whose content is the empty string PASSES the validator and the
request IS emitted (to the `Messaging` bucket of the channel),
contradicting the claim that it fails before any request. -/
theorem c6_counterexample :
    c6Msg.validate (fun _ => true) = true ∧
      (send_message (fun _ => true) 0 BucketsMap.empty "c1" c6Msg).toOption.map Prod.fst
        = some ⟨.messaging "c1", "channels/c1/messages"⟩ := by
  refine ⟨by decide, by decide⟩

/-- C6 amended: `send_message` runs the declarative validator before
emitting the request and surfaces a failure as `Api(FailedValidation)`;
but the content length bound is `0–2000`, so empty content passes (the
`EmptyMessage` rejection can only come from the server). -/
theorem c6_validator_gate {Mask : Type} (maskOk : Mask → Bool) (now : Nat)
    (bs : BucketsMap) (cid : String) (m : SendableMessage Mask) :
    (m.validate maskOk = false →
        send_message maskOk now bs cid m = .error (.api .failedValidation)) ∧
      SendableMessage.validate maskOk
          { SendableMessage.new with content := some "" } = true := by
  constructor
  · intro h
    simp [send_message, h]
  · rfl

/-- C6 amended, witness: a body with an empty attachment list fails the
validator and is rejected as `Api(FailedValidation)` with no request;
the empty-content body passes. -/
theorem c6_validator_gate_witness :
    (@send_message Unit (fun _ => true) 0 BucketsMap.empty "c1"
          { SendableMessage.new with attachments := some [] }
        = .error (.api .failedValidation)) ∧
      @SendableMessage.validate Unit (fun _ => true)
          { SendableMessage.new with content := some "" } = true :=
  ⟨(c6_validator_gate (fun _ => true) 0 BucketsMap.empty "c1"
      { SendableMessage.new with attachments := some [] }).1 (by decide),
    (c6_validator_gate (fun _ => true) 0 BucketsMap.empty "c1"
      { SendableMessage.new with attachments := some [] }).2⟩

/-- C9 counterexample: with every write accepted and no inbound frame,
after three loop iterations 90 s have passed — twice over the claimed
2 × 30 s reconnect horizon — yet the session has reconnected zero times
(each ping write refreshes `last_message`), while having sent one ping
per 30 s. -/
theorem c9_counterexample :
    (gatewayRun 3).now = 90000 ∧ (gatewayRun 3).reconnects = 0 ∧
      (gatewayRun 3).sent = List.replicate 3 pingFrame := by
  decide

/-- C9 amended: in the silent-inbound scenario the loop sends exactly
one `Ping{Number(0), responded: None}` each time 30 s elapse since the
last activity, and — because the ping write itself refreshes the
last-activity instant — the elapsed time never reaches 2 × 30 s and no
reconnect ever happens; the loop reconnects at the top of an iteration
exactly when the elapsed time has reached 2 × 30 s. -/
theorem c9_heartbeat_behaviour :
    (∀ k, (gatewayRun k).sent = List.replicate k pingFrame ∧
        (gatewayRun k).reconnects = 0 ∧
        (gatewayRun k).now = HEARTBEAT * k ∧
        (gatewayRun k).last = (gatewayRun k).now) ∧
      ∀ g : GatewayState, HEARTBEAT * 2 ≤ g.now - g.last →
        (gatewayStep g).reconnects = g.reconnects + 1 := by
  have closed : ∀ k, gatewayRun k =
      ⟨HEARTBEAT * k, HEARTBEAT * k, List.replicate k pingFrame, 0⟩ := by
    intro k
    induction k with
    | zero => rfl
    | succ k ih =>
      show gatewayStep (gatewayRun k) = _
      rw [ih]
      simp [gatewayStep, HEARTBEAT, List.replicate_succ' (n := k), Nat.mul_succ]
  constructor
  · intro k
    rw [closed k]
    exact ⟨rfl, rfl, rfl, rfl⟩
  · intro g h
    simp [gatewayStep, h]

/-- C9 amended, witness: one iteration sends exactly one ping, and an
iteration entered 70 s after the last activity reconnects. -/
theorem c9_heartbeat_behaviour_witness :
    (gatewayRun 1).sent = List.replicate 1 pingFrame ∧
      (gatewayStep ⟨70000, 0, [], 0⟩).reconnects = 0 + 1 :=
  ⟨(c9_heartbeat_behaviour.1 1).1,
    c9_heartbeat_behaviour.2 ⟨70000, 0, [], 0⟩ (by decide)⟩

/-- Inserting into a rank-descending list yields a permutation of the
element consed on. -/
lemma insertRankDesc_perm (x : Int × Override) (l : List (Int × Override)) :
    (insertRankDesc x l).Perm (x :: l) := by
  induction l with
  | nil => exact List.Perm.refl _
  | cons y ys ih =>
    unfold insertRankDesc
    split
    · exact ((ih.cons y).trans (List.Perm.swap x y ys))
    · exact List.Perm.refl _

/-- `sortRankDesc` permutes its input. -/
lemma sortRankDesc_perm (l : List (Int × Override)) :
    (sortRankDesc l).Perm l := by
  induction l with
  | nil => exact List.Perm.refl _
  | cons x xs ih =>
    exact (insertRankDesc_perm x (sortRankDesc xs)).trans (ih.cons x)

/-- Inserting into a rank-descending list keeps it rank-descending. -/
lemma insertRankDesc_sorted (x : Int × Override) (l : List (Int × Override))
    (h : l.Pairwise (fun a b => b.1 ≤ a.1)) :
    (insertRankDesc x l).Pairwise (fun a b => b.1 ≤ a.1) := by
  induction l with
  | nil => simp [insertRankDesc]
  | cons y ys ih =>
    rw [List.pairwise_cons] at h
    obtain ⟨hy, hys⟩ := h
    unfold insertRankDesc
    split
    · rename_i hlt
      rw [List.pairwise_cons]
      refine ⟨?_, ih hys⟩
      intro z hz
      rcases List.mem_cons.mp ((insertRankDesc_perm x ys).mem_iff.mp hz) with hz | hz
      · subst hz
        exact le_of_lt hlt
      · exact hy z hz
    · rename_i hge
      rw [List.pairwise_cons]
      refine ⟨?_, by rw [List.pairwise_cons]; exact ⟨hy, hys⟩⟩
      intro z hz
      rcases List.mem_cons.mp hz with hz | hz
      · subst hz
        exact le_of_not_lt hge
      · exact le_trans (hy z hz) (le_of_not_lt hge)

/-- `sortRankDesc` sorts by rank, descending. -/
lemma sortRankDesc_sorted (l : List (Int × Override)) :
    (sortRankDesc l).Pairwise (fun a b => b.1 ≤ a.1) := by
  induction l with
  | nil => simp [sortRankDesc]
  | cons x xs ih => exact insertRankDesc_sorted x (sortRankDesc xs) ih

/-- C2: `calculate_server_permissions` returns 0 when the member's
server differs from the server's id; `GrantAllSafe` when the member is
the owner; otherwise it folds the member's role overrides — a
rank-descending permutation of them, so the smallest rank is applied
last — over the server's `default_permissions` and, when the member is
in timeout, restricts the result to `ALLOW_IN_TIMEOUT`; and a member is
in timeout exactly when the timeout is set and lies in the future. -/
theorem c2_server_permissions (gas ait : Nat) (now : Int) (server : Server)
    (member : Member) :
    (member.id.server ≠ server.id →
        calculate_server_permissions gas ait now server member = 0) ∧
      (member.id.server = server.id → member.id.user = server.owner →
        calculate_server_permissions gas ait now server member = gas) ∧
      (member.id.server = server.id → member.id.user ≠ server.owner →
        calculate_server_permissions gas ait now server member =
          (let p := (sortRankDesc (roleOverrides server member)).foldl
              (fun p rv => applyOverride p rv.2) (u64ofInt server.default_permissions)
           if member.in_timeout now then Nat.land p ait else p)) ∧
      (sortRankDesc (roleOverrides server member)).Perm (roleOverrides server member) ∧
      (sortRankDesc (roleOverrides server member)).Pairwise (fun a b => b.1 ≤ a.1) ∧
      (member.in_timeout now = true ↔ ∃ t, member.timeout = some t ∧ now < t) := by
  refine ⟨?_, ?_, ?_, sortRankDesc_perm _, sortRankDesc_sorted _, ?_⟩
  · intro h
    simp [calculate_server_permissions, h]
  · intro h1 h2
    simp [calculate_server_permissions, h1, h2]
  · intro h1 h2
    simp [calculate_server_permissions, h1, h2]
  · unfold Member.in_timeout
    cases member.timeout with
    | none => simp
    | some t => simp

/-- The server used by the C2 witness: owner `owner`, two roles of
distinct ranks, default permissions 7. -/
def c2Server : Server :=
  ⟨"s", "owner", "srv", none, [],
    [("r1", ⟨"one", ⟨3, 1⟩, none, false, 2⟩), ("r2", ⟨"two", ⟨4, 2⟩, none, false, 1⟩)], 7⟩

/-- C2 witness: the three branches at concrete members — the foreign
member gets 0, the owner gets `GrantAllSafe`, a role-holding non-owner
gets the fold, and the timeout test at a set future timeout. -/
theorem c2_server_permissions_witness :
    calculate_server_permissions 99 7 0 c2Server ⟨⟨"t", "u"⟩, 0, none, none, [], none⟩ = 0 ∧
      calculate_server_permissions 99 7 0 c2Server
          ⟨⟨"s", "owner"⟩, 0, none, none, [], none⟩ = 99 ∧
      calculate_server_permissions 99 7 0 c2Server
          ⟨⟨"s", "u2"⟩, 0, none, none, ["r1", "r2"], none⟩ =
        (let p := (sortRankDesc (roleOverrides c2Server
              ⟨⟨"s", "u2"⟩, 0, none, none, ["r1", "r2"], none⟩)).foldl
            (fun p rv => applyOverride p rv.2) (u64ofInt c2Server.default_permissions)
         if Member.in_timeout ⟨⟨"s", "u2"⟩, 0, none, none, ["r1", "r2"], none⟩ 0 then
           Nat.land p 7
         else p) ∧
      (Member.in_timeout ⟨⟨"s", "u2"⟩, 0, none, none, [], some 5⟩ 0 = true ↔
        ∃ t, (some 5 : Option Int) = some t ∧ (0 : Int) < t) :=
  ⟨(c2_server_permissions 99 7 0 c2Server _).1 (by decide),
    (c2_server_permissions 99 7 0 c2Server _).2.1 rfl rfl,
    (c2_server_permissions 99 7 0 c2Server _).2.2.1 rfl (by decide),
    (c2_server_permissions 99 7 0 c2Server ⟨⟨"s", "u2"⟩, 0, none, none, [], some 5⟩).2.2.2.2.2⟩

/-- One step of `Buckets::take` on a non-expired bucket, as takes
iterate: the usage climbs while below the limit and every further take
is refused with `reset - now`. -/
lemma takeSeq_spec (key : BucketKey) (ts : List Nat) :
    ∀ (u r : Nat) (bs : BucketsMap), bs key = some ⟨u, r⟩ → (∀ t ∈ ts, t < r) →
      ∀ i t, ts.get? i = some t →
        (bs.takeSeq key ts).1.get? i =
          some (if u + i < key.limit then .ok else .retryAfter (r - t)) := by
  induction ts with
  | nil =>
    intro u r bs hb hts i t hit
    simp at hit
  | cons t0 ts ih =>
    intro u r bs hb hts i t hit
    have ht0 : t0 < r := hts t0 (List.mem_cons_self t0 ts)
    have hstep : bs.take key t0 =
        (if u < key.limit then (.ok, bs.put key ⟨u + 1, r⟩)
         else (.retryAfter (r - t0), bs.put key ⟨u, r⟩)) := by
      simp only [BucketsMap.take, hb, Bucket.deduct, Bucket.remaining,
        if_neg (Nat.not_le.mpr ht0)]
      rcases Nat.lt_or_ge u key.limit with hu | hu
      · rw [if_pos hu, if_pos]
        omega
      · rw [if_neg (Nat.not_lt.mpr hu), if_neg]
        omega
    match i with
    | 0 =>
      simp only [List.get?] at hit
      cases hit
      have h0 : (bs.takeSeq key (t0 :: ts)).1.get? 0 = some (bs.take key t0).1 := rfl
      rw [h0, hstep]
      rcases Nat.lt_or_ge u key.limit with hu | hu
      · rw [if_pos hu, if_pos (show u + 0 < key.limit by omega)]
      · rw [if_neg (Nat.not_lt.mpr hu), if_neg (show ¬ u + 0 < key.limit by omega)]
    | i + 1 =>
      simp only [List.get?] at hit
      have h1 : (bs.takeSeq key (t0 :: ts)).1.get? (i + 1) =
          ((bs.take key t0).2.takeSeq key ts).1.get? i := rfl
      rw [h1, hstep]
      have hput : ∀ b : Bucket, (bs.put key b) key = some b := by
        intro b
        simp [BucketsMap.put]
      rcases Nat.lt_or_ge u key.limit with hu | hu
      · rw [if_pos hu]
        have := ih (u + 1) r (bs.put key ⟨u + 1, r⟩) (hput _)
          (fun t ht => hts t (List.mem_cons_of_mem _ ht)) i t hit
        rw [this]
        congr 1
        by_cases h2 : u + (i + 1) < key.limit
        · rw [if_pos h2, if_pos (by omega)]
        · rw [if_neg h2, if_neg (by omega)]
      · rw [if_neg (Nat.not_lt.mpr hu)]
        have := ih u r (bs.put key ⟨u, r⟩) (hput _)
          (fun t ht => hts t (List.mem_cons_of_mem _ ht)) i t hit
        rw [this]
        congr 1
        rw [if_neg (by omega), if_neg (by omega)]

/-- Every per-family limit is positive. -/
lemma limit_pos (key : BucketKey) : 0 < key.limit := by
  cases key <;> simp [BucketKey.limit]

/-- C3: on a fresh bucket key, takes at times inside the 10-second
window opened by the first take return OK for exactly the first
`limit` calls and `RetryAfter (reset - now)` for every further call;
the `Messaging` family's limit is 10. -/
theorem c3_fresh_bucket_window (key : BucketKey) (t0 : Nat) (rest : List Nat)
    (hw : ∀ t ∈ rest, t < t0 + 10000) :
    (∀ i t, (t0 :: rest).get? i = some t →
        (BucketsMap.empty.takeSeq key (t0 :: rest)).1.get? i =
          some (if i < key.limit then .ok else .retryAfter (t0 + 10000 - t))) ∧
      ∀ cid, (BucketKey.messaging cid).limit = 10 := by
  constructor
  · have hfirst : BucketsMap.empty.take key t0 =
        (.ok, BucketsMap.empty.put key ⟨1, t0 + 10000⟩) := by
      simp [BucketsMap.take, BucketsMap.empty]
    intro i t hit
    match i with
    | 0 =>
      simp only [List.get?] at hit
      cases hit
      have h0 : (BucketsMap.empty.takeSeq key (t0 :: rest)).1.get? 0 =
          some (BucketsMap.empty.take key t0).1 := rfl
      rw [h0, hfirst, if_pos (limit_pos key)]
    | i + 1 =>
      simp only [List.get?] at hit
      have h1 : (BucketsMap.empty.takeSeq key (t0 :: rest)).1.get? (i + 1) =
          ((BucketsMap.empty.take key t0).2.takeSeq key rest).1.get? i := rfl
      rw [h1, hfirst]
      have hput : (BucketsMap.empty.put key ⟨1, t0 + 10000⟩) key
          = some ⟨1, t0 + 10000⟩ := by
        simp [BucketsMap.put]
      have := takeSeq_spec key rest 1 (t0 + 10000)
        (BucketsMap.empty.put key ⟨1, t0 + 10000⟩) hput hw i t hit
      rw [this]
      congr 1
      by_cases h2 : i + 1 < key.limit
      · rw [if_pos h2, if_pos (by omega)]
      · rw [if_neg h2, if_neg (by omega)]
  · intro cid
    rfl

/-- C3 witness: on fresh `Messaging("x")`, whose limit is 10, the 10th
take (index 9) is OK and the 11th (index 10) is refused with
`reset - now = 9990` ms left. -/
theorem c3_fresh_bucket_window_witness :
    (BucketsMap.empty.takeSeq (.messaging "x")
        (0 :: [1, 2, 3, 4, 5, 6, 7, 8, 9, 10, 11])).1.get? 9 = some .ok ∧
      (BucketsMap.empty.takeSeq (.messaging "x")
        (0 :: [1, 2, 3, 4, 5, 6, 7, 8, 9, 10, 11])).1.get? 10 =
        some (.retryAfter (0 + 10000 - 10)) ∧
      (BucketKey.messaging "x").limit = 10 := by
  have h := c3_fresh_bucket_window (.messaging "x") 0
    [1, 2, 3, 4, 5, 6, 7, 8, 9, 10, 11] (by decide)
  refine ⟨?_, ?_, h.2 "x"⟩
  · have h9 := h.1 9 9 (by decide)
    rw [h9]
    decide
  · have h10 := h.1 10 10 (by decide)
    rw [h10]
    decide

/-- C7 counterexample: in `c1State` the session user `u1` leaving `s1`
(`ServerMemberLeave`) leaves the unrelated emoji `e2` cached, while
`ServerDelete{id=s1}` removes it (via the inverted emoji retain), so
the two event applications do not produce the same cache state. -/
theorem c7_counterexample :
    (update 0 (.serverMemberLeave "s1" "u1") c1State).map (fun s => s.emojis "e2")
        = some (some c1Emoji2) ∧
      (update 0 (.serverDelete "s1") c1State).map (fun s => s.emojis "e2")
        = some none := by
  constructor <;> (simp only [update]; decide)

/-- C7 amended: when the server is cached and a cached channel has
`server_id = s` exactly when its id is listed in `servers[s].channels`,
the session user's `ServerMemberLeave` and `ServerDelete` agree on the
servers, channels, members and user_dms components; they differ on
emojis, which `ServerMemberLeave` always leaves unchanged (while
`ServerDelete` rewrites them with its inverted retain). -/
theorem c7_leave_vs_delete (now : Int) (s : CacheState) (uid sid : String)
    (server : Server) (huid : s.userId = some uid) (hsrv : s.servers sid = some server)
    (hchan : ∀ k c, s.channels k = some c →
      (c.server_id = some sid ↔ k ∈ server.channels)) :
    ∃ sL sD, update now (.serverMemberLeave sid uid) s = some sL ∧
      update now (.serverDelete sid) s = some sD ∧
      sL.servers = sD.servers ∧
      (∀ k, sL.channels k = sD.channels k) ∧
      sL.members = sD.members ∧
      sL.user_dms = sD.user_dms ∧
      sL.emojis = s.emojis := by
  have hL : update now (.serverMemberLeave sid uid) s = some
      { s with
        servers := fdel s.servers sid
        channels := fun k => if k ∈ server.channels then none else s.channels k
        members := fdel s.members sid } := by
    simp only [update, huid, hsrv, if_pos]
  have hD : update now (.serverDelete sid) s = some
      { s with
        servers := fdel s.servers sid
        members := fdel s.members sid
        channels := fun k =>
          match s.channels k with
          | some c => if c.server_id = some sid then none else some c
          | none => none
        emojis := fun k =>
          match s.emojis k with
          | some e => if e.parent.id = some sid then some e else none
          | none => none } := by
    simp only [update]
  refine ⟨_, _, hL, hD, rfl, ?_, rfl, rfl, rfl⟩
  intro k
  show (if k ∈ server.channels then none else s.channels k) =
    (match s.channels k with
      | some c => if c.server_id = some sid then none else some c
      | none => none)
  cases hc : s.channels k with
  | none => by_cases hk : k ∈ server.channels <;> simp [hk]
  | some c =>
    have hiff := hchan k c hc
    by_cases hk : k ∈ server.channels
    · simp [hk, hiff.mpr hk]
    · have hns : ¬ c.server_id = some sid := fun h => hk (hiff.mp h)
      simp [hk, hns]

/-- C7 amended, witness: `c1State` with server `s1`, whose channel list
is exactly its cached channels, satisfies the hypotheses, and the two
event applications then agree on everything but the emojis. -/
theorem c7_leave_vs_delete_witness :
    ∃ sL sD, update 0 (.serverMemberLeave "s1" "u1") c1State = some sL ∧
      update 0 (.serverDelete "s1") c1State = some sD ∧
      sL.servers = sD.servers ∧
      (∀ k, sL.channels k = sD.channels k) ∧
      sL.members = sD.members ∧
      sL.user_dms = sD.user_dms ∧
      sL.emojis = c1State.emojis := by
  refine c7_leave_vs_delete 0 c1State "u1" "s1" c1Server1 rfl rfl ?_
  intro k c hc
  simp only [c1State, fput] at hc
  split at hc
  · rename_i hk
    subst hk
    cases hc
    decide
  · split at hc
    · rename_i hk
      subst hk
      cases hc
      decide
    · cases hc

/-- C10: applying `ChannelCreate` of a `DirectMessage` panics (the
`expect` on `user_id` or the `unwrap` on the recipient search) unless
the session user id has been initialised (only `Ready` initialises it)
and the recipients contain an id different from it — the update
succeeds exactly under those preconditions; the same holds for
`ChannelDelete` when the channel cached under the deleted id is such a
`DirectMessage`. -/
theorem c10_dm_arm_panics (now : Int) (s : CacheState) (id : String) (active : Bool)
    (recips : List String) (lmid : Option String) :
    ((update now (.channelCreate (.directMessage id active recips lmid)) s).isSome ↔
        ∃ uid, s.userId = some uid ∧ ∃ o ∈ recips, o ≠ uid) ∧
      ∀ cid, s.channels cid = some (.directMessage id active recips lmid) →
        ((update now (.channelDelete cid) s).isSome ↔
          ∃ uid, s.userId = some uid ∧ ∃ o ∈ recips, o ≠ uid) := by
  constructor
  · simp only [update]
    split
    · rename_i hu
      simp [hu]
    · rename_i uid hu
      split
      · rename_i hf
        rw [List.find?_eq_none] at hf
        simp only [hu, Option.isSome_none, Bool.false_eq_true, false_iff]
        rintro ⟨uid', huid', o, ho, hne⟩
        rw [Option.some_inj] at huid'
        subst huid'
        have := hf o ho
        simp [hne] at this
      · rename_i other hf
        simp only [hu, Option.isSome_some, true_iff]
        exact ⟨uid, rfl, other, List.mem_of_find?_eq_some hf,
          by simpa using List.find?_some hf⟩
  · intro cid hcid
    simp only [update, hcid]
    split
    · rename_i hu
      simp [hu]
    · rename_i uid hu
      split
      · rename_i hf
        rw [List.find?_eq_none] at hf
        simp only [hu, Option.isSome_none, Bool.false_eq_true, false_iff]
        rintro ⟨uid', huid', o, ho, hne⟩
        rw [Option.some_inj] at huid'
        subst huid'
        have := hf o ho
        simp [hne] at this
      · rename_i other hf
        simp only [hu, Option.isSome_some, true_iff]
        exact ⟨uid, rfl, other, List.mem_of_find?_eq_some hf,
          by simpa using List.find?_some hf⟩

/-- A cache with the session user set and one DM channel, for the C10
witness. -/
def c10State : CacheState :=
  { CacheState.init with
    userId := some "u1"
    channels := fput (fun _ => none) "d1" (.directMessage "d1" true ["u1", "u2"] none) }

/-- C10 witness: with the session user initialised and a recipient
other than it, both DM arms run without panicking. -/
theorem c10_dm_arm_panics_witness :
    (update 0 (.channelCreate (.directMessage "d1" true ["u1", "u2"] none))
        c10State).isSome ∧
      (update 0 (.channelDelete "d1") c10State).isSome :=
  ⟨(c10_dm_arm_panics 0 c10State "d1" true ["u1", "u2"] none).1.mpr
      ⟨"u1", rfl, "u2", by decide, by decide⟩,
    ((c10_dm_arm_panics 0 c10State "d1" true ["u1", "u2"] none).2 "d1" rfl).mpr
      ⟨"u1", rfl, "u2", by decide, by decide⟩⟩

/-! ### The user_dms invariant (claim C8) -/

/-- The DM view of a channel: its id and recipients when it is a
`DirectMessage`, `none` otherwise. -/
def dmData : Channel → Option (String × List String)
  | .directMessage id _ recips _ => some (id, recips)
  | _ => Option.none

/-- The first recipient different from the session user — the one the
cache's `find(...).unwrap()` picks. -/
def theOther (uid : String) (recips : List String) : Option String :=
  recips.find? (fun i => i ≠ uid)

/-- A well-formed DM recipient set relative to the session user: every
recipient other than the session user is the one `find` picks (i.e.
there is at most one distinct other recipient). -/
def WfDm (uid : String) (recips : List String) : Prop :=
  ∀ x ∈ recips, x ≠ uid → theOther uid recips = some x

/-- The C8 invariant: once the session user is known, every cached
`DirectMessage` sits under its own id, is well formed, and `user_dms`
maps its other recipient to its id. -/
def DmInv (s : CacheState) : Prop :=
  ∀ uid k c id recips, s.userId = some uid → s.channels k = some c →
    dmData c = some (id, recips) →
    id = k ∧ WfDm uid recips ∧ ∀ o ∈ recips, o ≠ uid → s.user_dms o = some id

/-- A channel's id accessor agrees with its DM view. -/
lemma dmData_id {c : Channel} {id : String} {recips : List String}
    (h : dmData c = some (id, recips)) : c.id = id := by
  cases c <;> simp [dmData] at h <;> simp [Channel.id, h.1]

/-- Setting `last_message_id` does not change the DM view. -/
lemma dmData_setLastMessageId (mid : String) (c : Channel) :
    dmData (c.setLastMessageId mid) = dmData c := by
  cases c <;> rfl

/-- `PartialChannel::apply` does not change the DM view (it never
touches a channel's variant, id or recipients). -/
lemma dmData_applyPartial (p : PartialChannel) (c : Channel) :
    dmData (p.apply c) = dmData c := by
  cases c <;> rfl

/-- `FieldsChannel::remove` does not change the DM view. -/
lemma dmData_removeField (f : FieldsChannel) (c : Channel) :
    dmData (f.remove c) = dmData c := by
  cases f <;> cases c <;> rfl

/-- A fold of field clears does not change the DM view. -/
lemma dmData_clearFold (clear : List FieldsChannel) (c : Channel) :
    dmData (clear.foldl (fun c f => f.remove c) c) = dmData c := by
  induction clear generalizing c with
  | nil => rfl
  | cons f fs ih => rw [List.foldl_cons, ih, dmData_removeField]

/-- Looking a key up after inserting a channel list: the hit is either
one of the inserted channels or an old entry. -/
lemma foldl_fput_lookup (cs : List Channel) :
    ∀ (m0 : String → Option Channel) (k : String) (c : Channel),
      (cs.foldl (fun m c => fput m c.id c) m0) k = some c → c ∈ cs ∨ m0 k = some c := by
  induction cs with
  | nil =>
    intro m0 k c h
    exact Or.inr h
  | cons c0 cs ih =>
    intro m0 k c h
    rcases ih (fput m0 c0.id c0) k c h with hc | hc
    · exact Or.inl (List.mem_cons_of_mem _ hc)
    · unfold fput at hc
      split at hc
      · cases hc
        exact Or.inl (List.mem_cons_self _ _)
      · exact Or.inr hc

/-- Invariant transfer to a state whose channels shrink pointwise and
whose session user and `user_dms` are untouched. -/
lemma dmInv_restrict (s s' : CacheState) (h : DmInv s)
    (hu : s'.userId = s.userId)
    (hc : ∀ k c, s'.channels k = some c → s.channels k = some c)
    (hd : ∀ o, s'.user_dms o = s.user_dms o) : DmInv s' := by
  intro uid k c id recips huid hchan hdm
  have huid' : s.userId = some uid := by rw [← hu]; exact huid
  obtain ⟨h1, h2, h3⟩ := h uid k c id recips huid' (hc k c hchan) hdm
  exact ⟨h1, h2, fun o ho hne => by rw [hd o]; exact h3 o ho hne⟩

/-- Invariant transfer to a state that rewrites the channel at one key
by a DM-view-preserving function. -/
lemma dmInv_mapChannel (s : CacheState) (h : DmInv s) (g : Channel → Channel)
    (hg : ∀ c, dmData (g c) = dmData c) (t : String) :
    DmInv { s with channels := fun k =>
      if k = t then (s.channels k).map g else s.channels k } := by
  intro uid k c id recips huid hchan hdm
  simp only at hchan
  split at hchan
  · rcases Option.map_eq_some'.mp hchan with ⟨c0, hc0, hgc⟩
    have hdm0 : dmData c0 = some (id, recips) := by
      rw [← hdm, ← hgc, hg]
    exact h uid k c0 id recips huid hc0 hdm0
  · exact h uid k c id recips huid hchan hdm

/-- The folding step of `seedUserDms`, as a named function. -/
def seedStep (uid : String) (acc : Option (String → Option String)) (c : Channel) :
    Option (String → Option String) :=
  match acc, c with
  | some m, .directMessage id _ recips _ =>
    match recips.find? (fun i => i ≠ uid) with
    | some other => some (fput m other id)
    | none => none
  | some m, _ => some m
  | none, _ => none

/-- `seedUserDms` is the fold of `seedStep`. -/
lemma seedUserDms_eq (uid : String) (cs : List Channel) :
    seedUserDms uid cs = cs.foldl (seedStep uid) (some (fun _ => none)) := rfl

/-- `seedStep` in terms of the DM view. -/
lemma seedStep_eq (uid : String) (m0 : String → Option String) (c : Channel) :
    seedStep uid (some m0) c =
      match dmData c with
      | some p =>
        (match theOther uid p.2 with
          | some o => some (fput m0 o p.1)
          | none => none)
      | none => some m0 := by
  cases c <;> rfl

/-- A failed seeding stays failed. -/
lemma seed_foldl_none (uid : String) (cs : List Channel) :
    cs.foldl (seedStep uid) none = none := by
  induction cs with
  | nil => rfl
  | cons c cs ih =>
    rw [List.foldl_cons]
    have h : seedStep uid none c = none := by cases c <;> rfl
    rw [h, ih]

/-- What seeding guarantees: an entry not named by any DM keeps its
initial value, and when every DM naming an entry agrees on the channel
id, the entry maps to that id. -/
lemma seed_spec (uid : String) :
    ∀ (cs : List Channel) (m0 m : String → Option String),
      cs.foldl (seedStep uid) (some m0) = some m →
      (∀ o, (∀ c ∈ cs, ∀ id recips, dmData c = some (id, recips) →
          theOther uid recips ≠ some o) → m o = m0 o) ∧
      (∀ c ∈ cs, ∀ id recips, dmData c = some (id, recips) →
        ∀ o, theOther uid recips = some o →
        (∀ c' ∈ cs, ∀ id' recips', dmData c' = some (id', recips') →
          theOther uid recips' = some o → id' = id) →
        m o = some id) := by
  intro cs
  induction cs with
  | nil =>
    intro m0 m h
    simp only [List.foldl_nil, Option.some_inj] at h
    subst h
    exact ⟨fun o _ => rfl, fun c hc => absurd hc (List.not_mem_nil c)⟩
  | cons c0 cs ih =>
    intro m0 m h
    rw [List.foldl_cons, seedStep_eq] at h
    cases hd : dmData c0 with
    | none =>
      rw [hd] at h
      obtain ⟨ih1, ih2⟩ := ih m0 m h
      constructor
      · intro o ho
        exact ih1 o (fun c hc => ho c (List.mem_cons_of_mem _ hc))
      · intro c hc id recips hdm o hoth hdup
        rcases List.mem_cons.mp hc with hc | hc
        · subst hc
          rw [hd] at hdm
          cases hdm
        · exact ih2 c hc id recips hdm o hoth
            (fun c' hc' => hdup c' (List.mem_cons_of_mem _ hc'))
    | some p =>
      obtain ⟨id0, recips0⟩ := p
      rw [hd] at h
      dsimp only at h
      cases hfo : theOther uid recips0 with
      | none =>
        rw [hfo] at h
        rw [seed_foldl_none] at h
        cases h
      | some o0 =>
        rw [hfo] at h
        obtain ⟨ih1, ih2⟩ := ih (fput m0 o0 id0) m h
        constructor
        · intro o ho
          have ho0 : o ≠ o0 := by
            intro he
            exact ho c0 (List.mem_cons_self _ _) id0 recips0 hd (by rw [hfo, he])
          rw [ih1 o (fun c hc => ho c (List.mem_cons_of_mem _ hc))]
          unfold fput
          rw [if_neg ho0]
        · intro c hc id recips hdm o hoth hdup
          rcases List.mem_cons.mp hc with hc | hc
          · subst hc
            rw [hd] at hdm
            rw [Option.some_inj] at hdm
            have hid : id0 = id := congrArg Prod.fst hdm
            have hrec : recips0 = recips := congrArg Prod.snd hdm
            have hoo : o0 = o := by
              rw [hrec] at hfo
              rw [hfo] at hoth
              exact Option.some_inj.mp hoth
            by_cases hex : ∃ c' ∈ cs, ∃ id' recips',
                dmData c' = some (id', recips') ∧ theOther uid recips' = some o
            · obtain ⟨c', hc', id', recips', hdm', hoth'⟩ := hex
              have hid' : id' = id :=
                hdup c' (List.mem_cons_of_mem _ hc') id' recips' hdm' hoth'
              have hm := ih2 c' hc' id' recips' hdm' o hoth'
                (fun c'' hc'' id'' recips'' hdm'' hoth'' => by
                  rw [hdup c'' (List.mem_cons_of_mem _ hc'') id'' recips'' hdm'' hoth'',
                    hid'])
              rw [hm, hid']
            · push_neg at hex
              have hm := ih1 o (fun c' hc' id' recips' hdm' hoth' =>
                hex c' hc' id' recips' hdm' hoth')
              rw [hm]
              unfold fput
              rw [if_pos hoo.symm, hid]
          · exact ih2 c hc id recips hdm o hoth
              (fun c' hc' id' recips' hdm' hoth' =>
                hdup c' (List.mem_cons_of_mem _ hc') id' recips' hdm' hoth')


/-- Invariant transfer to a state with the same session user and
`user_dms` whose channels are either old entries or non-DMs. -/
lemma dmInv_of_fields (s s' : CacheState) (h : DmInv s)
    (hu : s'.userId = s.userId)
    (hd : ∀ o, s'.user_dms o = s.user_dms o)
    (hc : ∀ k c, s'.channels k = some c →
      dmData c = Option.none ∨ s.channels k = some c) : DmInv s' := by
  intro uid k c id recips huid hchan hdm
  rcases hc k c hchan with hn | hold
  · rw [hn] at hdm
    cases hdm
  · have huid' : s.userId = some uid := by rw [← hu]; exact huid
    obtain ⟨h1, h2, h3⟩ := h uid k c id recips huid' hold hdm
    exact ⟨h1, h2, fun o ho hne => by rw [hd o]; exact h3 o ho hne⟩

/-- `ChannelCreate` of a non-DM channel preserves the invariant. -/
lemma dmInv_create_nonDm (s : CacheState) (h : DmInv s) (c : Channel)
    (hc : dmData c = Option.none) :
    DmInv { s with channels := fput s.channels c.id c } := by
  refine dmInv_of_fields s _ h rfl (fun _ => rfl) ?_
  intro k c₂ hchan
  dsimp only at hchan
  unfold fput at hchan
  split at hchan
  · rw [Option.some_inj] at hchan
    subst hchan
    exact Or.inl hc
  · exact Or.inr hchan

/-- `ChannelCreate` of a well-formed fresh DM establishes its mapping
and preserves everyone else's. -/
lemma dmInv_create_dm (s : CacheState) (h : DmInv s) (uid id : String)
    (active : Bool) (recips : List String) (lmid : Option String) (other : String)
    (huid : s.userId = some uid)
    (hfind : theOther uid recips = some other)
    (hwfdm : WfDm uid recips)
    (hdup : ∀ k c', s.channels k = some c' → ∀ id' recips',
      dmData c' = some (id', recips') → theOther uid recips' = some other → id' = id) :
    DmInv { s with
      user_dms := fput s.user_dms other id
      channels := fput s.channels id (.directMessage id active recips lmid) } := by
  intro uid' k c₂ id₂ recips₂ huid' hchan hdm
  dsimp only at huid' hchan
  rw [huid, Option.some_inj] at huid'
  subst huid'
  unfold fput at hchan
  split at hchan
  · rename_i hk
    rw [Option.some_inj] at hchan
    subst hchan
    simp only [dmData, Option.some_inj] at hdm
    have hid : id = id₂ := congrArg Prod.fst hdm
    have hrec : recips = recips₂ := congrArg Prod.snd hdm
    refine ⟨by rw [← hid, hk], by rw [← hrec]; exact hwfdm, ?_⟩
    intro o ho hne
    rw [← hrec] at ho
    have ho' : o = other := by
      have := hwfdm o ho hne
      rw [hfind] at this
      exact (Option.some_inj.mp this).symm
    dsimp only
    unfold fput
    rw [if_pos ho', hid]
  · rename_i hk
    obtain ⟨h1, h2, h3⟩ := h uid k c₂ id₂ recips₂ huid hchan hdm
    refine ⟨h1, h2, ?_⟩
    intro o ho hne
    dsimp only
    unfold fput
    split
    · rename_i ho'
      subst ho'
      have hoth₂ : theOther uid recips₂ = some o := h2 o ho hne
      have : id₂ = id := hdup k c₂ hchan id₂ recips₂ hdm hoth₂
      exact absurd (h1 ▸ this.symm) (Ne.symm hk)
    · exact h3 o ho hne

/-- `ChannelDelete` of a cached DM removes its mapping and preserves
everyone else's. -/
lemma dmInv_delete_dm (s : CacheState) (h : DmInv s) (uid cid did : String)
    (active : Bool) (recips : List String) (lmid : Option String) (other : String)
    (huid : s.userId = some uid)
    (hchan : s.channels cid = some (.directMessage did active recips lmid))
    (hfind : theOther uid recips = some other) :
    DmInv { s with
      channels := fdel s.channels cid
      user_dms := fdel s.user_dms other } := by
  intro uid' k c₂ id₂ recips₂ huid' hchan₂ hdm₂
  dsimp only at huid' hchan₂
  rw [huid, Option.some_inj] at huid'
  subst huid'
  unfold fdel at hchan₂
  split at hchan₂
  · cases hchan₂
  · rename_i hk
    obtain ⟨h1, h2, h3⟩ := h uid k c₂ id₂ recips₂ huid hchan₂ hdm₂
    refine ⟨h1, h2, ?_⟩
    intro o ho hne
    dsimp only
    unfold fdel
    split
    · rename_i ho'
      subst ho'
      obtain ⟨hd1, _, hd3⟩ := h uid cid _ did recips huid hchan rfl
      have hom : o ∈ recips := List.mem_of_find?_eq_some hfind
      have hone : o ≠ uid := by simpa using List.find?_some hfind
      have hcid : s.user_dms o = some did := hd3 o hom hone
      have hk2 : s.user_dms o = some id₂ := h3 o ho hne
      rw [hcid, Option.some_inj] at hk2
      exact absurd (by rw [← h1, ← hk2, hd1]) hk
  -- the deleted channel's entry equals both cid and k, contradiction
    · exact h3 o ho hne

/-- `Ready` establishes the invariant from its snapshot. -/
lemma dmInv_ready (s : CacheState) (users : List UserM) (servers : List Server)
    (channels : List Channel) (members : List Member) (emojis : Option (List Emoji))
    (self : UserM) (dms : String → Option String)
    (hcoh : ∀ u, s.userId = some u → self.id = u)
    (hwfdm : ∀ c ∈ dedupChannels channels, ∀ id recips,
      dmData c = some (id, recips) → WfDm self.id recips)
    (hdistinct : ∀ c ∈ dedupChannels channels, ∀ c' ∈ dedupChannels channels,
      ∀ id recips id' recips', dmData c = some (id, recips) →
        dmData c' = some (id', recips') →
        ∀ o, theOther self.id recips = some o → theOther self.id recips' = some o →
          id = id')
    (hseed : seedUserDms self.id (dedupChannels channels) = some dms) :
    DmInv { userId := some (s.userId.getD self.id)
            userMention := some (s.userMention.getD ("<@" ++ self.id ++ ">"))
            servers := listToMap Server.id servers
            channels := fun k => (dedupChannels channels).find? (fun c => c.id = k)
            emojis := listToMap Emoji.id (emojis.getD [])
            members := readyMembers members
            user_dms := dms } := by
  intro uid k c id recips huid hchan hdm
  dsimp only at huid hchan
  have huid' : uid = self.id := by
    cases hsu : s.userId with
    | none =>
      rw [hsu] at huid
      exact (Option.some_inj.mp huid).symm
    | some u =>
      rw [hsu] at huid
      simp only [Option.getD, Option.some_inj] at huid
      rw [← huid, hcoh u hsu]
  subst huid'
  have hmem : c ∈ dedupChannels channels := List.mem_of_find?_eq_some hchan
  have hidk : c.id = k := by simpa using List.find?_some hchan
  have hid : id = k := by rw [← hidk, dmData_id hdm]
  refine ⟨hid, hwfdm c hmem id recips hdm, ?_⟩
  intro o ho hne
  have hoth : theOther self.id recips = some o := hwfdm c hmem id recips hdm o ho hne
  obtain ⟨_, hs2⟩ := seed_spec self.id (dedupChannels channels) (fun _ => none) dms
    (by rw [← seedUserDms_eq]; exact hseed)
  exact hs2 c hmem id recips hdm o hoth
    (fun c' hc' id' recips' hdm' hoth' =>
      hdistinct c' hc' c hmem id' recips' id recips hdm' hdm o hoth' hoth)

mutual

/-- Well-formedness of an event relative to the cache it is applied to:
the DM-shape conditions the claim's wording presupposes (\"the recipient
other than the session user\" — at most one distinct other per DM and
distinct DMs have distinct others; a repeated `Ready` names the same
session user; a `ServerCreate` carries no DM).  All other events are
unconditionally well-formed; `Bulk` requires each nested event to be
well-formed in the state it meets. -/
def EventWF (now : Int) : ServerMsg → CacheState → Prop
  | .bulk v, s => EventsWF now v s
  | .ready users _ channels _ _, s =>
    ∀ self, readySelf users = some self →
      (∀ u, s.userId = some u → self.id = u) ∧
      (∀ c ∈ dedupChannels channels, ∀ id recips,
        dmData c = some (id, recips) → WfDm self.id recips) ∧
      (∀ c ∈ dedupChannels channels, ∀ c' ∈ dedupChannels channels,
        ∀ id recips id' recips', dmData c = some (id, recips) →
          dmData c' = some (id', recips') →
          ∀ o, theOther self.id recips = some o →
            theOther self.id recips' = some o → id = id')
  | .channelCreate c, s =>
    ∀ id recips, dmData c = some (id, recips) →
      ∀ uid, s.userId = some uid →
        WfDm uid recips ∧
        ∀ k c', s.channels k = some c' → ∀ id' recips',
          dmData c' = some (id', recips') →
          ∀ o, theOther uid recips = some o → theOther uid recips' = some o →
            id' = id
  | .serverCreate _ _ channels _, _ => ∀ c ∈ channels, dmData c = Option.none
  | _, _ => True

/-- Well-formedness of a `Bulk` payload: each event is well-formed in
the state reached by its predecessors. -/
def EventsWF (now : Int) : List ServerMsg → CacheState → Prop
  | [], _ => True
  | e :: rest, s =>
    EventWF now e s ∧ ∀ s', update now e s = some s' → EventsWF now rest s'

end

/-- Fuelled preservation of the invariant, by strong induction on the
event size (so that `Bulk` can recurse into its payload). -/
lemma dmInv_preserved_aux (now : Int) :
    ∀ n : Nat, ∀ e : ServerMsg, sizeOf e ≤ n → ∀ s s' : CacheState,
      DmInv s → EventWF now e s → update now e s = some s' → DmInv s' := by
  intro n
  induction n with
  | zero =>
    intro e he s s' _ _ _
    exfalso
    cases e <;> simp at he
  | succ n ih =>
    intro e he s s' hinv hwf hupd
    cases e with
    | bulk v =>
      have hv : sizeOf v ≤ n := by
        simp at he
        omega
      simp only [update] at hupd
      simp only [EventWF] at hwf
      clear he
      revert hv hinv hwf hupd
      induction v generalizing s with
      | nil =>
        intro hinv hwf hupd hv
        simp only [updateAll, Option.some_inj] at hupd
        subst hupd
        exact hinv
      | cons e rest ihv =>
        intro hinv hwf hupd hv
        simp only [updateAll] at hupd
        split at hupd
        · rename_i s₁ heq
          simp only [EventsWF] at hwf
          obtain ⟨hwf1, hwf2⟩ := hwf
          have he1 : sizeOf e ≤ n := by
            simp at hv
            omega
          have hr : sizeOf rest ≤ n := by
            simp at hv
            omega
          exact ihv s₁ (ih e he1 s s₁ hinv hwf1 heq) (hwf2 s₁ heq) hupd hr
        · cases hupd
    | authenticated =>
      simp only [update, Option.some_inj] at hupd
      subst hupd
      exact hinv
    | ready users servers channels members emojis =>
      simp only [update] at hupd
      split at hupd
      · cases hupd
      · rename_i self hself
        split at hupd
        · cases hupd
        · rename_i dms hseed
          rw [Option.some_inj] at hupd
          subst hupd
          simp only [EventWF] at hwf
          obtain ⟨hcoh, hwfdm, hdistinct⟩ := hwf self hself
          exact dmInv_ready s users servers channels members emojis self dms
            hcoh hwfdm hdistinct hseed
    | pong =>
      simp only [update, Option.some_inj] at hupd
      subst hupd
      exact hinv
    | message m =>
      simp only [update, Option.some_inj] at hupd
      subst hupd
      exact dmInv_mapChannel s hinv _ (dmData_setLastMessageId m.id) m.channel_id
    | messageUpdate a b =>
      simp only [update, Option.some_inj] at hupd
      subst hupd
      exact hinv
    | messageAppend a b =>
      simp only [update, Option.some_inj] at hupd
      subst hupd
      exact hinv
    | messageDelete a b =>
      simp only [update, Option.some_inj] at hupd
      subst hupd
      exact hinv
    | messageReact a b c d =>
      simp only [update, Option.some_inj] at hupd
      subst hupd
      exact hinv
    | messageUnreact a b c d =>
      simp only [update, Option.some_inj] at hupd
      subst hupd
      exact hinv
    | messageRemoveReaction a b c =>
      simp only [update, Option.some_inj] at hupd
      subst hupd
      exact hinv
    | bulkMessageDelete a b =>
      simp only [update, Option.some_inj] at hupd
      subst hupd
      exact hinv
    | channelCreate c =>
      cases c with
      | directMessage did active recips lmid =>
        simp only [update] at hupd
        split at hupd
        · cases hupd
        · rename_i uid huid
          split at hupd
          · cases hupd
          · rename_i other hfind
            rw [Option.some_inj] at hupd
            subst hupd
            simp only [EventWF] at hwf
            obtain ⟨hwfdm, hdup⟩ := hwf did recips rfl uid huid
            exact dmInv_create_dm s hinv uid did active recips lmid other huid
              hfind hwfdm
              (fun k c' hc id' recips' hdm' hoth' =>
                hdup k c' hc id' recips' hdm' other hfind hoth')
      | savedMessages a b =>
        simp only [update, Option.some_inj] at hupd
        subst hupd
        exact dmInv_create_nonDm s hinv _ rfl
      | group a b c d e f g h i =>
        simp only [update, Option.some_inj] at hupd
        subst hupd
        exact dmInv_create_nonDm s hinv _ rfl
      | textChannel a b c d e f g h i =>
        simp only [update, Option.some_inj] at hupd
        subst hupd
        exact dmInv_create_nonDm s hinv _ rfl
      | voiceChannel a b c d e f g h =>
        simp only [update, Option.some_inj] at hupd
        subst hupd
        exact dmInv_create_nonDm s hinv _ rfl
    | channelUpdate cid data clear =>
      simp only [update, Option.some_inj] at hupd
      subst hupd
      exact dmInv_mapChannel s hinv _
        (fun c => by rw [dmData_clearFold, dmData_applyPartial]) cid
    | channelDelete cid =>
      simp only [update] at hupd
      split at hupd
      · rename_i did active recips lmid heq
        split at hupd
        · cases hupd
        · rename_i uid huid
          split at hupd
          · cases hupd
          · rename_i other hfind
            rw [Option.some_inj] at hupd
            subst hupd
            exact dmInv_delete_dm s hinv uid cid did active recips lmid other
              huid heq hfind
      · rw [Option.some_inj] at hupd
        subst hupd
        refine dmInv_of_fields s _ hinv rfl (fun _ => rfl) ?_
        intro k c h
        dsimp only at h
        unfold fdel at h
        split at h
        · cases h
        · exact Or.inr h
    | channelGroupJoin cid user_id =>
      simp only [update, Option.some_inj] at hupd
      subst hupd
      exact dmInv_mapChannel s hinv _ (fun c => by cases c <;> rfl) cid
    | channelGroupLeave cid user_id =>
      simp only [update, Option.some_inj] at hupd
      subst hupd
      exact dmInv_mapChannel s hinv _ (fun c => by cases c <;> rfl) cid
    | channelStartTyping a b =>
      simp only [update, Option.some_inj] at hupd
      subst hupd
      exact hinv
    | channelStopTyping a b =>
      simp only [update, Option.some_inj] at hupd
      subst hupd
      exact hinv
    | channelAck a b c =>
      simp only [update, Option.some_inj] at hupd
      subst hupd
      exact hinv
    | serverCreate sid server channels emojis =>
      simp only [update] at hupd
      split at hupd
      · cases hupd
      · rename_i uid huid
        rw [Option.some_inj] at hupd
        subst hupd
        simp only [EventWF] at hwf
        refine dmInv_of_fields s _ hinv rfl (fun _ => rfl) ?_
        intro k c h
        dsimp only at h
        rcases foldl_fput_lookup channels s.channels k c h with hc | hc
        · exact Or.inl (hwf c hc)
        · exact Or.inr hc
    | serverUpdate a b c =>
      simp only [update, Option.some_inj] at hupd
      subst hupd
      exact dmInv_of_fields s _ hinv rfl (fun _ => rfl) (fun k c h => Or.inr h)
    | serverDelete sid =>
      simp only [update, Option.some_inj] at hupd
      subst hupd
      refine dmInv_of_fields s _ hinv rfl (fun _ => rfl) ?_
      intro k c h
      dsimp only at h
      split at h
      · rename_i c' heq
        split at h
        · cases h
        · rw [Option.some_inj] at h
          subst h
          exact Or.inr heq
      · cases h
    | serverMemberUpdate a b c =>
      simp only [update, Option.some_inj] at hupd
      subst hupd
      exact dmInv_of_fields s _ hinv rfl (fun _ => rfl) (fun k c h => Or.inr h)
    | serverMemberJoin a b =>
      simp only [update, Option.some_inj] at hupd
      subst hupd
      exact dmInv_of_fields s _ hinv rfl (fun _ => rfl) (fun k c h => Or.inr h)
    | serverMemberLeave sid user_id =>
      simp only [update] at hupd
      split at hupd
      · split at hupd
        · rename_i server hserver
          rw [Option.some_inj] at hupd
          subst hupd
          refine dmInv_of_fields s _ hinv rfl (fun _ => rfl) ?_
          intro k c h
          dsimp only at h
          split at h
          · cases h
          · exact Or.inr h
        · rw [Option.some_inj] at hupd
          subst hupd
          exact hinv
      · rw [Option.some_inj] at hupd
        subst hupd
        exact dmInv_of_fields s _ hinv rfl (fun _ => rfl) (fun k c h => Or.inr h)
    | serverRoleUpdate a b c d =>
      simp only [update, Option.some_inj] at hupd
      subst hupd
      exact dmInv_of_fields s _ hinv rfl (fun _ => rfl) (fun k c h => Or.inr h)
    | serverRoleDelete a b =>
      simp only [update, Option.some_inj] at hupd
      subst hupd
      exact dmInv_of_fields s _ hinv rfl (fun _ => rfl) (fun k c h => Or.inr h)
    | userUpdate a =>
      simp only [update, Option.some_inj] at hupd
      subst hupd
      exact hinv
    | userRelationship a b =>
      simp only [update, Option.some_inj] at hupd
      subst hupd
      exact hinv
    | userSettingsUpdate =>
      simp only [update, Option.some_inj] at hupd
      subst hupd
      exact hinv
    | userPlatformWipe a =>
      simp only [update, Option.some_inj] at hupd
      subst hupd
      exact hinv
    | emojiCreate e =>
      simp only [update, Option.some_inj] at hupd
      subst hupd
      exact dmInv_of_fields s _ hinv rfl (fun _ => rfl) (fun k c h => Or.inr h)
    | emojiDelete a =>
      simp only [update, Option.some_inj] at hupd
      subst hupd
      exact dmInv_of_fields s _ hinv rfl (fun _ => rfl) (fun k c h => Or.inr h)
    | auth =>
      simp only [update, Option.some_inj] at hupd
      subst hupd
      exact hinv

/-- C8: once the session user is known, every cached `DirectMessage` D
has `user_dms[other(D)] = D.id`; the mapping is established by `Ready`
and `ChannelCreate` of a DM and the other recipient's entry is removed
by `ChannelDelete` of that DM, and the invariant is preserved by every
event application (with `Bulk` expanded recursively), for events that
are well-formed in the sense of `EventWF`. -/
theorem c8_user_dms_invariant (now : Int) (e : ServerMsg) (s s' : CacheState)
    (hinv : DmInv s) (hwf : EventWF now e s) (hupd : update now e s = some s') :
    DmInv s' :=
  dmInv_preserved_aux now (sizeOf e) e le_rfl s s' hinv hwf hupd

/-- A cache with only the session user set, for the C8 witness. -/
def c8State : CacheState := { CacheState.init with userId := some "u1" }

/-- C8 witness: the invariant holds of `c8State`, creating the fresh DM
`d1` with other recipient `u2` is well-formed there, the update
succeeds, and the invariant still holds afterwards. -/
theorem c8_user_dms_invariant_witness :
    DmInv c8State ∧
      EventWF 0 (.channelCreate (.directMessage "d1" true ["u1", "u2"] none)) c8State ∧
      ∃ s', update 0 (.channelCreate (.directMessage "d1" true ["u1", "u2"] none))
          c8State = some s' ∧ DmInv s' := by
  have hinv : DmInv c8State := by
    intro uid k c id recips _ hchan _
    cases hchan
  have hwf : EventWF 0 (.channelCreate (.directMessage "d1" true ["u1", "u2"] none))
      c8State := by
    simp only [EventWF]
    intro id recips hdm uid huid
    simp only [dmData, Option.some_inj] at hdm
    have hid : "d1" = id := congrArg Prod.fst hdm
    have hrec : ["u1", "u2"] = recips := congrArg Prod.snd hdm
    have huid' : "u1" = uid := Option.some_inj.mp huid
    subst hid
    subst hrec
    subst huid'
    constructor
    · unfold WfDm
      decide
    · intro k c' hc'
      cases hc'
  refine ⟨hinv, hwf, ?_⟩
  have hupd : update 0 (.channelCreate (.directMessage "d1" true ["u1", "u2"] none))
      c8State = some { c8State with
        user_dms := fput c8State.user_dms "u2" "d1"
        channels := fput c8State.channels "d1"
          (.directMessage "d1" true ["u1", "u2"] none) } := by
    simp only [update]
    rfl
  exact ⟨_, hupd, c8_user_dms_invariant 0 _ c8State _ hinv hwf hupd⟩

end Volty
